import Mathlib

/-!
Shallow embedding of the LoRa DX-LR02 file-transfer protocol, translated
from `lora_file_transfer.py` (the CLI tool) together with the identical
CRC and chunking logic duplicated in `lora_gui.py`, and theorems settling
the specification claims.

Conventions of the embedding:
* Python `bytes` elements are `Nat` values below 256; byte strings are
  `List Nat`; wire lines are `String`.
* The serial environment is a script: a `List (Option String)` of
  `read_line` results, `none` being a timeout; reading past the end of
  the script behaves as a timeout.
* Fallible Python operations (`base64.b64decode`, `int(...)`, a `dict`
  lookup that can raise `KeyError`) return `Option`.
* Filesystem effects are recorded as an explicit `FsOp` trace.
-/

set_option maxRecDepth 4000

namespace LoraFT

/-- CRC16 inner-loop iteration of `calculate_crc16` (`lora_file_transfer.py`
lines 74-79): if the top bit is set, shift left and xor the CCITT
polynomial 0x1021, else just shift; then mask with `crc &= 0xFFFF`. -/
def crc16Round (crc : Nat) : Nat :=
  (if crc &&& 0x8000 ≠ 0 then (crc <<< 1) ^^^ 0x1021 else crc <<< 1) &&& 0xFFFF

/-- iterated `crc16Round`, the Python `for _ in range(8)` inner loop. -/
def crc16Rounds : Nat → Nat → Nat
  | 0, crc => crc
  | n + 1, crc => crc16Rounds n (crc16Round crc)

/-- CRC16 accumulator loop of `calculate_crc16` (lines 71-79): seed
0xFFFF, per input byte xor `byte << 8` into the crc and run eight
rounds. -/
def crc16core (data : List Nat) : Nat :=
  data.foldl (fun crc b => crc16Rounds 8 (crc ^^^ (b <<< 8))) 0xFFFF

/-- lowercase hexadecimal digit character, as Python `format(_, 'x')`
produces. -/
def hexDigitChar (n : Nat) : Char :=
  if n < 10 then Char.ofNat (48 + n) else Char.ofNat (87 + n)

/-- four-digit zero-padded lowercase hex rendering. Faithful to Python
`format(crc, '04x')` for every value below 0x10000, which the result of
`crc16core` always is (`crc16core_lt`). -/
def toHex4 (n : Nat) : String :=
  ⟨[hexDigitChar (n / 4096 % 16), hexDigitChar (n / 256 % 16),
    hexDigitChar (n / 16 % 16), hexDigitChar (n % 16)]⟩

/-- embedding of `calculate_crc16` (`lora_file_transfer.py` lines 69-80;
`lora_gui.py` lines 26-37 are the same code). -/
def calculate_crc16 (data : List Nat) : String := toHex4 (crc16core data)

/-- value of a standard-alphabet base64 character. -/
def b64val (c : Char) : Option Nat :=
  if 'A' ≤ c ∧ c ≤ 'Z' then some (c.toNat - 65)
  else if 'a' ≤ c ∧ c ≤ 'z' then some (c.toNat - 97 + 26)
  else if '0' ≤ c ∧ c ≤ '9' then some (c.toNat - 48 + 52)
  else if c = '+' then some 62
  else if c = '/' then some 63
  else none

/-- character of a six-bit group, for encoding. -/
def b64Char (n : Nat) : Char :=
  if n < 26 then Char.ofNat (65 + n)
  else if n < 52 then Char.ofNat (97 + (n - 26))
  else if n < 62 then Char.ofNat (48 + (n - 52))
  else if n = 62 then '+' else '/'

/-- standard base64 encoding of a byte list (`base64.b64encode`):
three-byte groups become four characters, a two-byte tail becomes three
characters plus `=`, a one-byte tail two characters plus `==`. -/
def b64chars : List Nat → List Char
  | a :: b :: c :: t =>
    let w := (a % 256) * 65536 + (b % 256) * 256 + c % 256
    b64Char (w / 262144 % 64) :: b64Char (w / 4096 % 64) ::
      b64Char (w / 64 % 64) :: b64Char (w % 64) :: b64chars t
  | [a, b] =>
    let w := (a % 256) * 1024 + (b % 256) * 4
    [b64Char (w / 4096 % 64), b64Char (w / 64 % 64), b64Char (w % 64), '=']
  | [a] =>
    let w := (a % 256) * 16
    [b64Char (w / 64 % 64), b64Char (w % 64), '=', '=']
  | [] => []

/-- string form of the base64 encoding. -/
def b64encode (data : List Nat) : String := ⟨b64chars data⟩

/-- decoding of base64 quads: `=` padding is accepted only at the very
end, and the length must be a multiple of four (`binascii` raises
"incorrect padding" otherwise, which `none` models). -/
def b64quads : List Char → Option (List Nat)
  | [] => some []
  | c1 :: c2 :: c3 :: c4 :: t =>
    match b64val c1, b64val c2 with
    | some v1, some v2 =>
      if c3 = '=' then
        if c4 = '=' ∧ t = [] then some [v1 * 4 + v2 / 16] else none
      else
        match b64val c3 with
        | some v3 =>
          if c4 = '=' then
            if t = [] then some [v1 * 4 + v2 / 16, (v2 % 16) * 16 + v3 / 4]
            else none
          else
            match b64val c4 with
            | some v4 =>
              match b64quads t with
              | some rest =>
                some ((v1 * 4 + v2 / 16) :: ((v2 % 16) * 16 + v3 / 4) ::
                  ((v3 % 4) * 64 + v4) :: rest)
              | none => none
            | none => none
        | none => none
    | _, _ => none
  | _ => none

/-- embedding of `base64.b64decode` with its default `validate=False`:
characters outside the alphabet and `=` are discarded before decoding. -/
def b64decode (s : String) : Option (List Nat) :=
  b64quads (s.data.filter (fun c => (b64val c).isSome || c = '='))

/-- split a character list on `':'` at most `n` times, Python
`str.split(':', n)`. -/
def splitColon : Nat → List Char → List (List Char)
  | 0, s => [s]
  | n + 1, s =>
    let pre := s.takeWhile (fun c => c ≠ ':')
    match s.dropWhile (fun c => c ≠ ':') with
    | [] => [s]
    | _ :: t => pre :: splitColon n t

/-- unlimited split on `':'`, Python `str.split(':')`: the number of
splits can never exceed the length. -/
def splitColonAll (l : List Char) : List (List Char) := splitColon l.length l

/-- decimal digit run parse. -/
def parseDigits : List Char → Option Nat
  | [] => none
  | l =>
    if l.all (fun c => '0' ≤ c ∧ c ≤ '9')
    then some (l.foldl (fun a c => a * 10 + (c.toNat - 48)) 0)
    else none

/-- whitespace as Python `int(...)` strips it. -/
def isWS (c : Char) : Bool := c = ' ' ∨ c = '\t' ∨ c = '\r' ∨ c = '\n'

/-- Python `int(...)` as applied to wire fields: optional surrounding
whitespace, optional sign, then decimal digits; `none` models the
`ValueError` branch. -/
def parseIntStr (s : String) : Option Int :=
  match ((s.data.dropWhile isWS).reverse.dropWhile isWS).reverse with
  | '-' :: t => (parseDigits t).map (fun n => -(n : Int))
  | '+' :: t => (parseDigits t).map (fun n => (n : Int))
  | t => (parseDigits t).map (fun n => (n : Int))

/-- tag test `line.startswith(tag)`, stated over the character lists. -/
def hasTag (tag : String) (l : String) : Bool :=
  decide (l.data.take tag.data.length = tag.data)

/-! ### Sender (`send_file`, `lora_file_transfer.py` lines 120-195) -/

/-- chunk size of the CLI tool (`lora_file_transfer.py` line 30). -/
def CHUNK_SIZE : Nat := 150

/-- chunk size of the GUI variant (`lora_gui.py` line 20). -/
def GUI_CHUNK_SIZE : Nat := 100

/-- retry budget (`lora_file_transfer.py` line 31, same in the GUI). -/
def MAX_RETRIES : Nat := 5

/-- receive directory (`lora_file_transfer.py` line 33). -/
def RECEIVE_DIR : String := "./lora_received"

/-- chunk partition of `send_file` (line 133):
`[data[i:i+cs] for i in range(0, len(data), cs)]`, where
`range(0, len, cs)` enumerates `cs * k` for `k < (len + cs - 1) / cs`. -/
def sendChunksOf (cs : Nat) (data : List Nat) : List (List Nat) :=
  (List.range ((data.length + cs - 1) / cs)).map fun k => (data.drop (cs * k)).take cs

/-- embedding of `wait_for_ack` (lines 106-117), applied to the line that
`read_line` returned. -/
def wait_for_ack (expected : Int) (line : Option String) : Bool × String :=
  match line with
  | none => (false, "timeout")
  | some l =>
    if l = "ACK:" ++ toString expected then (true, "ack")
    else if l = "NACK:" ++ toString expected then (false, "nack")
    else if l = "ABORT" then (false, "abort")
    else (false, "unexpected: " ++ l)

/-- result of one sender phase: emitted packets, success flag, and the
unconsumed remainder of the read script. -/
structure PhaseRes where
  trace : List String
  ok : Bool
  rest : List (Option String)
deriving Repr, DecidableEq

/-- retry loop shared by the header and the chunk phases (lines 143-149
and 160-172): send the packet, wait for the acknowledgement, retry up to
the given budget. -/
def attemptLoop (seq : Int) (pkt : String) : Nat → List (Option String) → PhaseRes
  | 0, script => ⟨[], false, script⟩
  | n + 1, script =>
    if (wait_for_ack seq (script.headD none)).1 then ⟨[pkt], true, script.tail⟩
    else
      let r := attemptLoop seq pkt n script.tail
      ⟨pkt :: r.trace, r.ok, r.rest⟩

/-- DATA record for one chunk (line 158). -/
def dataPacket (seq : Int) (chunk : List Nat) : String :=
  "DATA:" ++ toString seq ++ ":" ++ calculate_crc16 chunk ++ ":" ++ b64encode chunk

/-- Python `enumerate(chunks, 1)`. -/
def enumFrom (i : Int) : List (List Nat) → List (Int × List Nat)
  | [] => []
  | c :: t => (i, c) :: enumFrom (i + 1) t

/-- chunk phase of `send_file` (lines 155-180): each chunk is retried up
to `MAX_RETRIES`; on exhaustion the sender emits one `ABORT` and stops. -/
def sendChunksPhase : List (Int × List Nat) → List (Option String) → PhaseRes
  | [], script => ⟨[], true, script⟩
  | (seq, ch) :: t, script =>
    let a := attemptLoop seq (dataPacket seq ch) MAX_RETRIES script
    if a.ok then
      let r := sendChunksPhase t a.rest
      ⟨a.trace ++ r.trace, r.ok, r.rest⟩
    else ⟨a.trace ++ ["ABORT"], false, a.rest⟩

/-- DONE phase of `send_file` (lines 183-195): resend `DONE:<crc>` until
the literal line `OK` arrives, up to `MAX_RETRIES`; no `ABORT` here. -/
def doneLoop (pkt : String) : Nat → List (Option String) → PhaseRes
  | 0, script => ⟨[], false, script⟩
  | n + 1, script =>
    if script.headD none = some "OK" then ⟨[pkt], true, script.tail⟩
    else
      let r := doneLoop pkt n script.tail
      ⟨pkt :: r.trace, r.ok, r.rest⟩

/-- FILE header (line 140): basename, chunk count, byte size. -/
def fileHeader (name : String) (data : List Nat) : String :=
  "FILE:" ++ name ++ ":" ++ toString (sendChunksOf CHUNK_SIZE data).length ++ ":" ++
    toString data.length

/-- embedding of `send_file` (lines 120-195) run against a read script;
returns the success flag and the emitted packet trace. -/
def send_file (data : List Nat) (name : String) (script : List (Option String)) :
    Bool × List String :=
  let h := attemptLoop 0 (fileHeader name data) MAX_RETRIES script
  if h.ok then
    let c := sendChunksPhase (enumFrom 1 (sendChunksOf CHUNK_SIZE data)) h.rest
    if c.ok then
      let d := doneLoop ("DONE:" ++ calculate_crc16 data) MAX_RETRIES c.rest
      (d.ok, h.trace ++ c.trace ++ d.trace)
    else (false, h.trace ++ c.trace)
  else (false, h.trace)

/-! ### Receiver (`receive_file`, `lora_file_transfer.py` lines 198-329) -/

/-- receiver session state: the sparse chunk store (Python dict as an
association list with distinct keys) and `expected_seq`. -/
structure RecvState where
  chunks : List (Int × List Nat)
  expected : Int
deriving Repr, DecidableEq

/-- state right after the FILE header is acknowledged (lines 234-235). -/
def initState : RecvState := ⟨[], 1⟩

/-- Python `chunks[seq] = data`: replace in place or append. -/
def storeChunk (seq : Int) (d : List Nat) : List (Int × List Nat) → List (Int × List Nat)
  | [] => [(seq, d)]
  | (k, v) :: t => if k = seq then (k, d) :: t else (k, v) :: storeChunk seq d t

/-- Python `chunks[seq]` as an `Option` (a `none` is a `KeyError`). -/
def lookupChunk (seq : Int) : List (Int × List Nat) → Option (List Nat)
  | [] => none
  | (k, v) :: t => if k = seq then some v else lookupChunk seq t

/-- Python `range(1, total + 1)` over `int` values. -/
def seqRange (total : Int) : List Int :=
  if total ≤ 0 then [] else (List.range total.toNat).map fun (n : Nat) => (n : Int) + 1

/-- Python `b''.join(chunks[i] for i in range(1, total + 1))`: `none`
models the uncaught `KeyError` on a missing key. -/
def reassemble (chunks : List (Int × List Nat)) : List Int → Option (List Nat)
  | [] => some []
  | i :: t =>
    match lookupChunk i chunks, reassemble chunks t with
    | some d, some r => some (d ++ r)
    | _, _ => none

/-- filesystem effects the receiver performs. -/
inductive FsOp where
  | write (path : String) (data : List Nat)
  | rename (src : String) (dst : String)
deriving Repr, DecidableEq

/-- terminal outcomes of the inner receive loop. `crashed` is the
uncaught `KeyError` of the reassembly join (line 295); `crashedDiv` is the
uncaught `ZeroDivisionError` of the progress computation
`len(chunks) / total_chunks` (line 282), reached when an in-order chunk is
accepted while the announced `total_chunks` is 0. -/
inductive RxEnd where
  | failed
  | aborted
  | crashed
  | crashedDiv
  | diverged
  | completed (path : String) (data : List Nat)
deriving Repr, DecidableEq

/-- result of one receive-loop iteration: emitted packets, filesystem
effects, and either the next state or a terminal outcome. -/
structure StepRes where
  emits : List String
  fs : List FsOp
  next : RecvState ⊕ RxEnd
deriving Repr, DecidableEq

/-- embedding of `os.path.basename`: the characters after the last
`'/'`. -/
def basename (s : String) : String :=
  ⟨(s.data.reverse.takeWhile (fun c => c ≠ '/')).reverse⟩

/-- embedding of the POSIX `os.path.join` on two components: an absolute
second component wins; otherwise a separator is inserted unless the first
component is empty or already ends in one. -/
def joinPath (a b : String) : String :=
  if b.data.head? = some '/' then b
  else if a = "" ∨ a.data.getLast? = some '/' then a ++ b
  else a ++ "/" ++ b

/-- embedding of `os.path.splitext` on the character list: the extension
starts at the last dot, unless every character before it is a dot. -/
def splitextChars (l : List Char) : List Char × List Char :=
  match l.reverse.findIdx? (fun c => c = '.') with
  | none => (l, [])
  | some r =>
    let dotIdx := l.length - 1 - r
    if (l.take dotIdx).any (fun c => c ≠ '.') then (l.take dotIdx, l.drop dotIdx)
    else (l, [])

/-- string form of `os.path.splitext`. -/
def splitext (s : String) : String × String :=
  (⟨(splitextChars s.data).1⟩, ⟨(splitextChars s.data).2⟩)

/-- collision-suffix candidate `f"{base}_{counter}{ext}"` (line 312). -/
def candName (stem extn : String) (k : Nat) : String :=
  stem ++ "_" ++ toString k ++ extn

/-- the `while os.path.exists(output_path)` loop (lines 311-313), with
fuel standing in for the unbounded Python loop; `ex` is the
`os.path.exists` oracle. -/
def resolveLoop (ex : String → Bool) (dir stem extn : String) : Nat → Nat → Option String
  | 0, _ => none
  | fuel + 1, k =>
    let cand := joinPath dir (candName stem extn k)
    if ex cand then resolveLoop ex dir stem extn fuel (k + 1) else some cand

/-- output-path choice of the receiver (lines 303-313): basename into the
receive directory, with numeric suffixes on collision. -/
def resolvePath (ex : String → Bool) (dir fname : String) (fuel : Nat) : Option String :=
  let safe := basename fname
  let p := joinPath dir safe
  if ex p then resolveLoop ex dir (splitext safe).1 (splitext safe).2 fuel 1
  else some p

/-- field split of a DATA line, Python `line.split(':', 3)` plus the
`len(parts) != 4` arity check (lines 246-249). -/
def parseDataFields (l : String) : Option (String × String × String) :=
  match splitColon 3 l.data with
  | [_, a, b, c] => some (⟨a⟩, ⟨b⟩, ⟨c⟩)
  | _ => none

/-- DATA-record handling (lines 251-283): base64-decode, recompute the
CRC, store and ACK on success, NACK otherwise. When the stored seq equals
`expected_seq`, the latter is incremented and the progress line 282 then
computes `len(chunks) / total_chunks` — for an announced
`total_chunks = 0` that raises an uncaught `ZeroDivisionError`, ending
the session right after the chunk was stored and `ACK:<seq>` emitted
(the `.crashedDiv` outcome). -/
def dataStep (total : Int) (st : RecvState) (seq : Int) (claimed : String)
    (b64 : String) : StepRes :=
  match b64decode b64 with
  | none => ⟨["NACK:" ++ toString seq], [], .inl st⟩
  | some d =>
    if calculate_crc16 d = claimed then
      if seq = st.expected then
        if total = 0 then ⟨["ACK:" ++ toString seq], [], .inr .crashedDiv⟩
        else ⟨["ACK:" ++ toString seq], [],
          .inl ⟨storeChunk seq d st.chunks, st.expected + 1⟩⟩
      else ⟨["ACK:" ++ toString seq], [],
        .inl ⟨storeChunk seq d st.chunks, st.expected⟩⟩
    else ⟨["NACK:" ++ toString seq], [], .inl st⟩

/-- DONE-record handling (lines 285-323): compare the store size with
`total_chunks`, reassemble over `range(1, total + 1)` (a missing key is
Python's uncaught `KeyError`, modelled as `.crashed`), check the
whole-file CRC, then save under a collision-avoiding path and emit
`OK`. -/
def doneStep (total : Int) (ex : String → Bool) (fuel : Nat) (fname : String)
    (st : RecvState) (claimed : String) : StepRes :=
  if (st.chunks.length : Int) ≠ total then ⟨["ABORT"], [], .inr .failed⟩
  else
    match reassemble st.chunks (seqRange total) with
    | none => ⟨[], [], .inr .crashed⟩
    | some fd =>
      if calculate_crc16 fd = claimed then
        match resolvePath ex RECEIVE_DIR fname fuel with
        | some p => ⟨["OK"], [FsOp.write p fd], .inr (.completed p fd)⟩
        | none => ⟨[], [], .inr .diverged⟩
      else ⟨["ABORT"], [], .inr .failed⟩

/-- one iteration of the inner receive loop (lines 238-327) on one
`read_line` result: a timeout re-emits `NACK:<expected_seq>`; DATA, DONE
and ABORT records are handled; anything else is silently dropped. -/
def recvStep (total : Int) (ex : String → Bool) (fuel : Nat) (fname : String)
    (st : RecvState) (line : Option String) : StepRes :=
  match line with
  | none => ⟨["NACK:" ++ toString st.expected], [], .inl st⟩
  | some l =>
    if hasTag "DATA:" l then
      match parseDataFields l with
      | some (sStr, c, b) =>
        match parseIntStr sStr with
        | some seq => dataStep total st seq c b
        | none => ⟨[], [], .inl st⟩
      | none => ⟨[], [], .inl st⟩
    else if hasTag "DONE:" l then
      doneStep total ex fuel fname st ⟨(splitColonAll l.data).getD 1 []⟩
    else if l = "ABORT" then ⟨[], [], .inr .aborted⟩
    else ⟨[], [], .inl st⟩

/-- the inner receive loop run over a whole read script: accumulates the
emitted packets and filesystem effects, stopping at the first terminal
outcome. -/
def runSession (total : Int) (ex : String → Bool) (fuel : Nat) (fname : String) :
    RecvState → List (Option String) → List String × List FsOp × (RecvState ⊕ RxEnd)
  | st, [] => ([], [], .inl st)
  | st, l :: rest =>
    match (recvStep total ex fuel fname st l).next with
    | .inl st' =>
      ((recvStep total ex fuel fname st l).emits ++ (runSession total ex fuel fname st' rest).1,
       (recvStep total ex fuel fname st l).fs ++ (runSession total ex fuel fname st' rest).2.1,
       (runSession total ex fuel fname st' rest).2.2)
    | .inr e => ((recvStep total ex fuel fname st l).emits, (recvStep total ex fuel fname st l).fs,
        .inr e)

/-- Modelled from the spec: "Write atomically (write to a temp path
within the same directory, then rename)" — the filesystem trace must be a
write to a distinct temporary path in the same directory followed by a
rename of it onto the final path. Used only to compare the code's actual
trace against the spec's atomicity demand. -/
def dirOf (p : String) : String :=
  ⟨(p.data.reverse.dropWhile (fun c => c ≠ '/')).reverse⟩

/-- Modelled from the spec: the atomic-write shape of a filesystem
trace. -/
def isAtomicTrace (final : String) (ops : List FsOp) : Prop :=
  ∃ tmp d, tmp ≠ final ∧ dirOf tmp = dirOf final ∧
    ops = [FsOp.write tmp d, FsOp.rename tmp final]

/-- provenance of a stored chunk: some DATA line of the script carries
this sequence number and a payload that decodes to exactly these bytes
with a matching CRC (invariant I2 of the spec). -/
def dataJustified (L : List (Option String)) (s : Int) (d : List Nat) : Prop :=
  ∃ l sStr c b, some l ∈ L ∧ hasTag "DATA:" l = true ∧
    parseDataFields l = some (sStr, c, b) ∧ parseIntStr sStr = some s ∧
    b64decode b = some d ∧ calculate_crc16 d = c

/-! ### Helper lemmas: CRC16 bounds and hex formatting -/

theorem crc16Round_le (c : Nat) : crc16Round c ≤ 0xFFFF :=
  Nat.and_le_right

theorem crc16Rounds_le (n c : Nat) (h : 0 < n) : crc16Rounds n c ≤ 0xFFFF := by
  induction n generalizing c with
  | zero => omega
  | succ m ih =>
    cases m with
    | zero => simpa [crc16Rounds] using crc16Round_le c
    | succ k => simpa [crc16Rounds] using ih (crc16Round c) (Nat.succ_pos k)

theorem crc16core_lt (data : List Nat) : crc16core data < 65536 := by
  have key : ∀ (l : List Nat) (init : Nat), init ≤ 0xFFFF →
      l.foldl (fun crc b => crc16Rounds 8 (crc ^^^ (b <<< 8))) init ≤ 0xFFFF := by
    intro l
    induction l with
    | nil => intro init h; simpa using h
    | cons b t ih =>
      intro init _
      exact ih _ (crc16Rounds_le 8 (init ^^^ (b <<< 8)) (by omega))
  have := key data 0xFFFF (le_refl _)
  unfold crc16core
  omega

theorem hexDigitChar_mem (n : Nat) (h : n < 16) :
    hexDigitChar n ∈ ("0123456789abcdef" : String).data := by
  interval_cases n <;> decide

theorem calculate_crc16_length (data : List Nat) : (calculate_crc16 data).length = 4 := rfl

theorem calculate_crc16_chars (data : List Nat) :
    ∀ c ∈ (calculate_crc16 data).data, c ∈ ("0123456789abcdef" : String).data := by
  intro c hc
  have : (calculate_crc16 data).data =
      [hexDigitChar (crc16core data / 4096 % 16), hexDigitChar (crc16core data / 256 % 16),
       hexDigitChar (crc16core data / 16 % 16), hexDigitChar (crc16core data % 16)] := rfl
  rw [this] at hc
  simp only [List.mem_cons, List.not_mem_nil, or_false] at hc
  rcases hc with rfl | rfl | rfl | rfl <;>
    exact hexDigitChar_mem _ (Nat.mod_lt _ (by omega))

/-! ### Helper lemmas: strings and tags -/

theorem mk_append (a b : List Char) : (⟨a⟩ : String) ++ ⟨b⟩ = ⟨a ++ b⟩ := rfl

theorem str_append_assoc (a b c : String) : a ++ b ++ c = a ++ (b ++ c) := by
  obtain ⟨x⟩ := a; obtain ⟨y⟩ := b; obtain ⟨z⟩ := c
  show (⟨(x ++ y) ++ z⟩ : String) = ⟨x ++ (y ++ z)⟩
  rw [List.append_assoc]

theorem hasTag_append (t r : String) : hasTag t (t ++ r) = true := by
  obtain ⟨td⟩ := t; obtain ⟨rd⟩ := r
  show decide (((⟨td ++ rd⟩ : String)).data.take (⟨td⟩ : String).data.length = td) = true
  show decide ((td ++ rd).take td.length = td) = true
  rw [List.take_left]
  simp

theorem hasTag_append_ne (t u r : String) (hlen : u.data.length = t.data.length)
    (hne : u.data ≠ t.data) : hasTag t (u ++ r) = false := by
  obtain ⟨td⟩ := t; obtain ⟨ud⟩ := u; obtain ⟨rd⟩ := r
  show decide (((⟨ud ++ rd⟩ : String)).data.take (⟨td⟩ : String).data.length = td) = false
  show decide ((ud ++ rd).take td.length = td) = false
  simp only [String.data] at hlen hne
  rw [← hlen, List.take_left]
  simpa using hne

theorem ne_of_tag (t x y : String) (hx : hasTag t x = true) (hy : hasTag t y = false) :
    x ≠ y := by
  intro h
  rw [h] at hx
  rw [hx] at hy
  exact Bool.noConfusion hy

theorem dataPacket_tag (s : Int) (c : List Nat) : hasTag "DATA:" (dataPacket s c) = true := by
  unfold dataPacket
  simp only [str_append_assoc]
  exact hasTag_append _ _

theorem fileHeader_tag (name : String) (data : List Nat) :
    hasTag "FILE:" (fileHeader name data) = true := by
  unfold fileHeader
  simp only [str_append_assoc]
  exact hasTag_append _ _

theorem fileHeader_no_data_tag (name : String) (data : List Nat) :
    hasTag "DATA:" (fileHeader name data) = false := by
  unfold fileHeader
  simp only [str_append_assoc]
  exact hasTag_append_ne "DATA:" "FILE:" _ (by decide) (by decide)

theorem donePkt_no_data_tag (r : String) : hasTag "DATA:" ("DONE:" ++ r) = false :=
  hasTag_append_ne "DATA:" "DONE:" r (by decide) (by decide)

/-! ### Helper lemmas: chunk partition -/

theorem sendChunksOf_nil (cs : Nat) : sendChunksOf cs [] = [] := by
  unfold sendChunksOf
  have h0 : (([] : List Nat).length + cs - 1) / cs = 0 := by
    rcases Nat.eq_zero_or_pos cs with rfl | h
    · simp
    · simp only [List.length_nil, Nat.zero_add]
      exact Nat.div_eq_of_lt (by omega)
  rw [h0]
  simp

theorem sendChunksOf_cons (cs : Nat) (hcs : 0 < cs) (data : List Nat) (hd : data ≠ []) :
    sendChunksOf cs data = data.take cs :: sendChunksOf cs (data.drop cs) := by
  have hl : 0 < data.length := List.length_pos.mpr hd
  by_cases hle : data.length ≤ cs
  · have hdrop : data.drop cs = [] := List.drop_eq_nil_of_le hle
    have hn : (data.length + cs - 1) / cs = 1 := by
      apply Nat.div_eq_of_lt_le <;> omega
    rw [hdrop, sendChunksOf_nil]
    unfold sendChunksOf
    rw [hn]
    simp [List.range_succ]
  · push_neg at hle
    have hdl : (data.drop cs).length = data.length - cs := List.length_drop cs data
    have hn : (data.length + cs - 1) / cs = ((data.drop cs).length + cs - 1) / cs + 1 := by
      rw [hdl]
      have e : data.length + cs - 1 = ((data.length - cs) + cs - 1) + cs := by omega
      rw [e, Nat.add_div_right _ hcs]
    show (List.range ((data.length + cs - 1) / cs)).map
        (fun k => (data.drop (cs * k)).take cs) = _
    rw [hn, List.range_succ_eq_map]
    simp only [List.map_cons, List.map_map, Nat.mul_zero, List.drop_zero]
    congr 1
    apply List.map_congr_left
    intro k _
    show (data.drop (cs * Nat.succ k)).take cs = ((data.drop cs).drop (cs * k)).take cs
    rw [List.drop_drop]
    congr 2
    rw [Nat.succ_eq_add_one]
    ring

theorem sendChunksOf_ne_nil (cs : Nat) (hcs : 0 < cs) (data : List Nat) (hd : data ≠ []) :
    sendChunksOf cs data ≠ [] := by
  rw [sendChunksOf_cons cs hcs data hd]
  simp

theorem sendChunksOf_props (cs : Nat) (hcs : 0 < cs) (data : List Nat) :
    (sendChunksOf cs data).flatten = data ∧
    (∀ c ∈ (sendChunksOf cs data).dropLast, c.length = cs) ∧
    (∀ c ∈ sendChunksOf cs data, c.length ≤ cs ∧ c ≠ []) := by
  generalize hn : data.length = n
  induction n using Nat.strong_induction_on generalizing data with
  | _ n ih =>
    rcases eq_or_ne data [] with rfl | hne
    · simp [sendChunksOf_nil]
    · have hlt : (data.drop cs).length < n := by
        rw [List.length_drop]
        have := List.length_pos.mpr hne
        omega
      obtain ⟨ihj, ihd, iha⟩ := ih (data.drop cs).length hlt (data.drop cs) rfl
      rw [sendChunksOf_cons cs hcs data hne]
      refine ⟨?_, ?_, ?_⟩
      · simp only [List.flatten_cons, ihj]
        exact List.take_append_drop cs data
      · by_cases hdrop : data.drop cs = []
        · rw [hdrop, sendChunksOf_nil]
          simp
        · have hnn := sendChunksOf_ne_nil cs hcs _ hdrop
          rw [List.dropLast_cons_of_ne_nil hnn]
          intro c hc
          rcases List.mem_cons.mp hc with rfl | hc'
          · have : ¬ data.length ≤ cs := fun hle => hdrop (List.drop_eq_nil_of_le hle)
            rw [List.length_take]
            omega
          · exact ihd c hc'
      · intro c hc
        rcases List.mem_cons.mp hc with rfl | hc'
        · constructor
          · rw [List.length_take]; omega
          · rw [Ne, List.take_eq_nil_iff]
            push_neg
            exact ⟨by omega, hne⟩
        · exact iha c hc'

theorem sendChunksOf_ceil (cs : Nat) (hcs : 0 < cs) (data : List Nat) (h : 0 < data.length) :
    cs * ((sendChunksOf cs data).length - 1) < data.length ∧
    data.length ≤ cs * (sendChunksOf cs data).length := by
  generalize hn : data.length = n
  rw [hn] at h
  induction n using Nat.strong_induction_on generalizing data with
  | _ n ih =>
    have hne : data ≠ [] := by
      intro h'
      rw [h'] at hn
      simp at hn
      omega
    rw [sendChunksOf_cons cs hcs data hne]
    by_cases hle : data.length ≤ cs
    · rw [List.drop_eq_nil_of_le hle, sendChunksOf_nil]
      simp
      omega
    · push_neg at hle
      have hdl : (data.drop cs).length = data.length - cs := List.length_drop cs data
      have hlt : (data.drop cs).length < n := by omega
      have hpos : 0 < (data.drop cs).length := by omega
      obtain ⟨ih1, ih2⟩ := ih (data.drop cs).length hlt (data.drop cs) hpos rfl
      have hrl : 1 ≤ (sendChunksOf cs (data.drop cs)).length := by
        have := sendChunksOf_ne_nil cs hcs (data.drop cs) (by
          intro h'
          rw [h'] at hdl
          simp at hdl
          omega)
        exact List.length_pos.mpr this
      obtain ⟨m, hm⟩ : ∃ m, (sendChunksOf cs (data.drop cs)).length = m + 1 :=
        ⟨_, (Nat.succ_pred_eq_of_pos hrl).symm⟩
      rw [hm] at ih1 ih2
      simp only [Nat.add_sub_cancel] at ih1
      rw [hdl] at ih1 ih2
      simp only [List.length_cons, hm]
      have e1 : cs * (m + 1) = cs * m + cs := by ring
      have e2 : cs * (m + 1 + 1) = cs * (m + 1) + cs := by ring
      constructor
      · simp only [Nat.add_sub_cancel]
        omega
      · omega

/-! ### Claim C3 -/

/-- C3 (counterexample): the spec's test vector `CRC16("") = 1d0f` is false
on the code: `calculate_crc16` of the empty byte string is `"ffff"` (seed
0xFFFF is returned untouched when there are no input bytes). -/
theorem C3_counterexample :
    calculate_crc16 [] = "ffff" ∧ ("ffff" : String) ≠ "1d0f" := by
  constructor
  · decide
  · decide

/-- C3 (amended): `calculate_crc16` returns exactly four lowercase
hexadecimal digits (its CRC value is always below 0x10000, so Python's
`format(crc, '04x')` zero-pads to exactly four), and its actual test
vectors are `calculate_crc16 [] = "ffff"`, `calculate_crc16 [0x41] =
"b915"` and `calculate_crc16 "123456789" = "29b1"` — the spec's claimed
values `1d0f` for the empty string and `58e5` for `"A"` are those of a
different CRC16 variant and do not match the code. -/
theorem C3_crc16_format_and_vectors :
    (∀ data : List Nat, (calculate_crc16 data).length = 4 ∧ crc16core data < 65536 ∧
      ∀ c ∈ (calculate_crc16 data).data, c ∈ ("0123456789abcdef" : String).data) ∧
    calculate_crc16 [] = "ffff" ∧
    calculate_crc16 [65] = "b915" ∧
    calculate_crc16 [49, 50, 51, 52, 53, 54, 55, 56, 57] = "29b1" := by
  refine ⟨fun data => ⟨calculate_crc16_length data, crc16core_lt data,
    calculate_crc16_chars data⟩, by decide, by decide, by decide⟩

/-- C3 (witness): the format facts evaluated at the byte string `"A"`. -/
theorem C3_witness :
    (calculate_crc16 [65]).length = 4 ∧ 'b' ∈ ("0123456789abcdef" : String).data :=
  ⟨(C3_crc16_format_and_vectors.1 [65]).1,
   (C3_crc16_format_and_vectors.1 [65]).2.2 'b' (by decide)⟩

/-! ### Helper lemmas: sender phase traces -/

theorem attemptLoop_trace_mem (seq : Int) (pkt : String) :
    ∀ (n : Nat) (script : List (Option String)), ∀ x ∈ (attemptLoop seq pkt n script).trace,
      x = pkt := by
  intro n
  induction n with
  | zero => intro script x hx; simp [attemptLoop] at hx
  | succ m ih =>
    intro script x hx
    unfold attemptLoop at hx
    split at hx
    · simp at hx; exact hx
    · simp only [List.mem_cons] at hx
      rcases hx with rfl | hx'
      · rfl
      · exact ih script.tail x hx'

theorem attemptLoop_trace_shape (seq : Int) (pkt : String) (n : Nat)
    (script : List (Option String)) (h : 0 < n) :
    ∃ t, (attemptLoop seq pkt n script).trace = pkt :: t := by
  cases n with
  | zero => omega
  | succ m =>
    unfold attemptLoop
    split
    · exact ⟨[], rfl⟩
    · exact ⟨_, rfl⟩

theorem doneLoop_trace_mem (pkt : String) :
    ∀ (n : Nat) (script : List (Option String)), ∀ x ∈ (doneLoop pkt n script).trace,
      x = pkt := by
  intro n
  induction n with
  | zero => intro script x hx; simp [doneLoop] at hx
  | succ m ih =>
    intro script x hx
    unfold doneLoop at hx
    split at hx
    · simp at hx; exact hx
    · simp only [List.mem_cons] at hx
      rcases hx with rfl | hx'
      · rfl
      · exact ih script.tail x hx'

theorem sendChunksPhase_trace (l : List (Int × List Nat)) :
    ∀ script : List (Option String),
      ((sendChunksPhase l script).ok = true →
        ∀ x ∈ (sendChunksPhase l script).trace, ∃ s c, x = dataPacket s c) ∧
      ((sendChunksPhase l script).ok = false →
        ∃ pre, (sendChunksPhase l script).trace = pre ++ ["ABORT"] ∧
          ∀ x ∈ pre, ∃ s c, x = dataPacket s c) := by
  induction l with
  | nil =>
    intro script
    constructor
    · intro _ x hx; simp [sendChunksPhase] at hx
    · intro h; simp [sendChunksPhase] at h
  | cons hd t ih =>
    obtain ⟨seq, ch⟩ := hd
    intro script
    unfold sendChunksPhase
    by_cases ha : (attemptLoop seq (dataPacket seq ch) MAX_RETRIES script).ok
    · simp only [ha, if_true]
      obtain ⟨ihT, ihF⟩ := ih (attemptLoop seq (dataPacket seq ch) MAX_RETRIES script).rest
      constructor
      · intro hok x hx
        simp only [List.mem_append] at hx
        rcases hx with hx | hx
        · exact ⟨seq, ch, attemptLoop_trace_mem seq _ _ _ x hx⟩
        · exact ihT hok x hx
      · intro hfail
        obtain ⟨pre, hpre, hmem⟩ := ihF hfail
        refine ⟨(attemptLoop seq (dataPacket seq ch) MAX_RETRIES script).trace ++ pre, ?_, ?_⟩
        · rw [hpre, List.append_assoc]
        · intro x hx
          simp only [List.mem_append] at hx
          rcases hx with hx | hx
          · exact ⟨seq, ch, attemptLoop_trace_mem seq _ _ _ x hx⟩
          · exact hmem x hx
    · simp only [ha, Bool.false_eq_true, if_false]
      constructor
      · intro hok; simp at hok
      · intro _
        refine ⟨(attemptLoop seq (dataPacket seq ch) MAX_RETRIES script).trace, rfl, ?_⟩
        intro x hx
        exact ⟨seq, ch, attemptLoop_trace_mem seq _ _ _ x hx⟩

theorem dataPacket_ne_abort (s : Int) (c : List Nat) : dataPacket s c ≠ "ABORT" :=
  ne_of_tag "DATA:" _ _ (dataPacket_tag s c) (by decide)

theorem fileHeader_ne_abort (name : String) (data : List Nat) :
    fileHeader name data ≠ "ABORT" :=
  ne_of_tag "FILE:" _ _ (fileHeader_tag name data) (by decide)

theorem donePkt_ne_abort (r : String) : "DONE:" ++ r ≠ "ABORT" :=
  ne_of_tag "DONE:" _ _ (hasTag_append "DONE:" r) (by decide)

theorem abort_not_mem_attemptLoop (seq : Int) (pkt : String) (n : Nat)
    (script : List (Option String)) (h : pkt ≠ "ABORT") :
    "ABORT" ∉ (attemptLoop seq pkt n script).trace := by
  intro hm
  exact h (attemptLoop_trace_mem seq pkt n script "ABORT" hm).symm

theorem abort_not_mem_doneLoop (pkt : String) (n : Nat)
    (script : List (Option String)) (h : pkt ≠ "ABORT") :
    "ABORT" ∉ (doneLoop pkt n script).trace := by
  intro hm
  exact h (doneLoop_trace_mem pkt n script "ABORT" hm).symm

theorem abort_mem_sendChunksPhase (l : List (Int × List Nat))
    (script : List (Option String)) :
    "ABORT" ∈ (sendChunksPhase l script).trace ↔ (sendChunksPhase l script).ok = false := by
  obtain ⟨hT, hF⟩ := sendChunksPhase_trace l script
  constructor
  · intro hm
    by_contra hok
    simp only [Bool.not_eq_false] at hok
    obtain ⟨s, c, habs⟩ := hT hok "ABORT" hm
    exact dataPacket_ne_abort s c habs.symm
  · intro hfail
    obtain ⟨pre, hpre, _⟩ := hF hfail
    rw [hpre]
    simp

theorem abort_count_sendChunksPhase (l : List (Int × List Nat))
    (script : List (Option String)) :
    ((sendChunksPhase l script).trace.count "ABORT") ≤ 1 := by
  obtain ⟨hT, hF⟩ := sendChunksPhase_trace l script
  by_cases hok : (sendChunksPhase l script).ok
  · have : "ABORT" ∉ (sendChunksPhase l script).trace := by
      intro hm
      obtain ⟨s, c, habs⟩ := hT hok "ABORT" hm
      exact dataPacket_ne_abort s c habs.symm
    rw [List.count_eq_zero.mpr this]
    omega
  · simp only [Bool.not_eq_true] at hok
    obtain ⟨pre, hpre, hmem⟩ := hF hok
    rw [hpre, List.count_append]
    have : pre.count "ABORT" = 0 := by
      apply List.count_eq_zero.mpr
      intro hm
      obtain ⟨s, c, habs⟩ := hmem "ABORT" hm
      exact dataPacket_ne_abort s c habs.symm
    rw [this]
    simp

/-! ### Claim C4 -/

/-- C4 (confirmed): the sender partitions the file bytes into consecutive
chunks — their concatenation is the file, every chunk except possibly the
last has exactly `cs` bytes, every chunk is nonempty with at most `cs`
bytes; the chunk count is `(len + cs - 1) / cs`, i.e. `ceil(len / cs)`
(pinned by the two inequalities); a zero-byte file gives no chunks; the
CLI uses `cs = 150` and the GUI `cs = 100`; the FILE header `send_file`
emits first announces exactly this chunk count; and for a zero-byte file
no emitted packet is a DATA record. -/
theorem C4_chunk_partition (cs : Nat) (hcs : 0 < cs) (data : List Nat) :
    (sendChunksOf cs data).flatten = data ∧
    (sendChunksOf cs data).length = (data.length + cs - 1) / cs ∧
    (∀ c ∈ (sendChunksOf cs data).dropLast, c.length = cs) ∧
    (∀ c ∈ sendChunksOf cs data, c.length ≤ cs ∧ c ≠ []) ∧
    (0 < data.length →
      cs * ((sendChunksOf cs data).length - 1) < data.length ∧
      data.length ≤ cs * (sendChunksOf cs data).length) ∧
    (data.length = 0 → sendChunksOf cs data = []) ∧
    CHUNK_SIZE = 150 ∧ GUI_CHUNK_SIZE = 100 ∧
    (∀ name script, (send_file data name script).2.head? = some (fileHeader name data)) ∧
    (data = [] → ∀ name script, ∀ p ∈ (send_file data name script).2,
      hasTag "DATA:" p = false) := by
  obtain ⟨hj, hd, ha⟩ := sendChunksOf_props cs hcs data
  refine ⟨hj, by simp [sendChunksOf], hd, ha, sendChunksOf_ceil cs hcs data, ?_, rfl, rfl,
    ?_, ?_⟩
  · intro h0
    rw [List.length_eq_zero.mp h0]
    exact sendChunksOf_nil cs
  · intro name script
    obtain ⟨t, ht⟩ := attemptLoop_trace_shape 0 (fileHeader name data) MAX_RETRIES script
      (by decide)
    simp only [send_file]
    split
    · split
      · rw [ht]; simp
      · rw [ht]; simp
    · rw [ht]; simp
  · rintro rfl name script p hp
    simp only [send_file, sendChunksOf_nil, enumFrom, sendChunksPhase] at hp
    split at hp
    · simp only [List.append_nil] at hp
      rcases List.mem_append.mp hp with h1 | h1
      · rw [attemptLoop_trace_mem 0 _ MAX_RETRIES script p h1]
        exact fileHeader_no_data_tag name []
      · rw [doneLoop_trace_mem _ MAX_RETRIES _ p h1]
        exact donePkt_no_data_tag (calculate_crc16 [])
    · rw [attemptLoop_trace_mem 0 _ MAX_RETRIES script p hp]
      exact fileHeader_no_data_tag name []

/-- C4 (witness): the partition facts evaluated at a one-byte file with
the CLI chunk size. -/
theorem C4_witness :
    (sendChunksOf 150 [7]).flatten = [7] ∧
    (150 * ((sendChunksOf 150 [7]).length - 1) < [7].length ∧
      [7].length ≤ 150 * (sendChunksOf 150 [7]).length) :=
  ⟨(C4_chunk_partition 150 (by decide) [7]).1,
   (C4_chunk_partition 150 (by decide) [7]).2.2.2.2.1 (by decide)⟩

/-! ### Claim C5 -/

/-- C5 (confirmed): `send_file` emits `ABORT` exactly when the header
phase succeeded and some mid-transfer DATA chunk then exhausted its
`MAX_RETRIES` attempts (the chunk phase failed); in that case the result
is failure and the `ABORT` is the very last emitted packet (so no DATA
record follows it), and at most one `ABORT` is ever emitted; exhaustion
of the FILE-header retries, or success of every chunk followed by
exhaustion of the DONE retries, produces failure with no `ABORT`. -/
theorem C5_abort_discipline (data : List Nat) (name : String) (script : List (Option String)) :
    ("ABORT" ∈ (send_file data name script).2 ↔
      (attemptLoop 0 (fileHeader name data) MAX_RETRIES script).ok = true ∧
      (sendChunksPhase (enumFrom 1 (sendChunksOf CHUNK_SIZE data))
        (attemptLoop 0 (fileHeader name data) MAX_RETRIES script).rest).ok = false) ∧
    ("ABORT" ∈ (send_file data name script).2 →
      (send_file data name script).1 = false ∧
      ∃ t, (send_file data name script).2 = t ++ ["ABORT"]) ∧
    ((send_file data name script).2.count "ABORT" ≤ 1) ∧
    ((attemptLoop 0 (fileHeader name data) MAX_RETRIES script).ok = false →
      (send_file data name script).1 = false ∧ "ABORT" ∉ (send_file data name script).2) ∧
    ((attemptLoop 0 (fileHeader name data) MAX_RETRIES script).ok = true →
      (sendChunksPhase (enumFrom 1 (sendChunksOf CHUNK_SIZE data))
        (attemptLoop 0 (fileHeader name data) MAX_RETRIES script).rest).ok = true →
      (send_file data name script).1 = false → "ABORT" ∉ (send_file data name script).2) := by
  have hH : "ABORT" ∉ (attemptLoop 0 (fileHeader name data) MAX_RETRIES script).trace :=
    abort_not_mem_attemptLoop _ _ _ _ (fileHeader_ne_abort name data)
  have hHc : ((attemptLoop 0 (fileHeader name data) MAX_RETRIES script).trace.count "ABORT") = 0 :=
    List.count_eq_zero.mpr hH
  by_cases hok : (attemptLoop 0 (fileHeader name data) MAX_RETRIES script).ok = true
  · by_cases hco : (sendChunksPhase (enumFrom 1 (sendChunksOf CHUNK_SIZE data))
        (attemptLoop 0 (fileHeader name data) MAX_RETRIES script).rest).ok = true
    · -- chunk phase succeeded: trace is header ++ chunks ++ done, no ABORT anywhere
      have hC : "ABORT" ∉ (sendChunksPhase (enumFrom 1 (sendChunksOf CHUNK_SIZE data))
          (attemptLoop 0 (fileHeader name data) MAX_RETRIES script).rest).trace := by
        rw [abort_mem_sendChunksPhase]
        simp [hco]
      have hD : ∀ n s, "ABORT" ∉ (doneLoop ("DONE:" ++ calculate_crc16 data) n s).trace :=
        fun n s => abort_not_mem_doneLoop _ n s (donePkt_ne_abort _)
      have htr : (send_file data name script).2 =
          (attemptLoop 0 (fileHeader name data) MAX_RETRIES script).trace ++
          (sendChunksPhase (enumFrom 1 (sendChunksOf CHUNK_SIZE data))
            (attemptLoop 0 (fileHeader name data) MAX_RETRIES script).rest).trace ++
          (doneLoop ("DONE:" ++ calculate_crc16 data) MAX_RETRIES
            (sendChunksPhase (enumFrom 1 (sendChunksOf CHUNK_SIZE data))
              (attemptLoop 0 (fileHeader name data) MAX_RETRIES script).rest).rest).trace := by
        simp only [send_file, hok, hco, if_true]
      have hnm : "ABORT" ∉ (send_file data name script).2 := by
        rw [htr]
        simp only [List.mem_append]
        rintro ((h | h) | h)
        · exact hH h
        · exact hC h
        · exact hD _ _ h
      refine ⟨⟨fun hm => absurd hm hnm, fun ⟨_, h⟩ => absurd hco (by simp [h])⟩,
        fun hm => absurd hm hnm, ?_, fun hf => absurd hok (by simp [hf]),
        fun _ _ _ => hnm⟩
      rw [List.count_eq_zero.mpr hnm]
      omega
    · -- chunk phase failed: ABORT emitted once, last
      simp only [Bool.not_eq_true] at hco
      obtain ⟨pre, hpre, hmem⟩ := (sendChunksPhase_trace _ _).2 hco
      have htr : (send_file data name script) =
          (false, (attemptLoop 0 (fileHeader name data) MAX_RETRIES script).trace ++
            (sendChunksPhase (enumFrom 1 (sendChunksOf CHUNK_SIZE data))
              (attemptLoop 0 (fileHeader name data) MAX_RETRIES script).rest).trace) := by
        simp only [send_file, hok, hco, if_true, Bool.false_eq_true, if_false]
      have hPre : "ABORT" ∉ pre := by
        intro hm
        obtain ⟨s, c, habs⟩ := hmem "ABORT" hm
        exact dataPacket_ne_abort s c habs.symm
      have hmm : "ABORT" ∈ (send_file data name script).2 := by
        rw [htr, hpre]
        simp
      refine ⟨⟨fun _ => ⟨hok, hco⟩, fun _ => hmm⟩, fun _ => ⟨by rw [htr], ?_⟩, ?_,
        fun hf => absurd hok (by simp [hf]), fun _ hc2 => absurd hco (by simp [hc2])⟩
      · refine ⟨(attemptLoop 0 (fileHeader name data) MAX_RETRIES script).trace ++ pre, ?_⟩
        rw [htr]
        simp only [hpre, List.append_assoc]
      · rw [htr]
        simp only [List.count_append, hHc, hpre]
        rw [List.count_eq_zero.mpr hPre]
        simp
  · -- header exhausted: failure, trace is just the headers
    simp only [Bool.not_eq_true] at hok
    have htr : (send_file data name script) =
        (false, (attemptLoop 0 (fileHeader name data) MAX_RETRIES script).trace) := by
      simp only [send_file, hok, Bool.false_eq_true, if_false]
    have hnm : "ABORT" ∉ (send_file data name script).2 := by
      rw [htr]
      exact hH
    refine ⟨⟨fun hm => absurd hm hnm, fun ⟨h, _⟩ => absurd hok (by simp [h])⟩,
      fun hm => absurd hm hnm, ?_, fun _ => ⟨by rw [htr], hnm⟩,
      fun h1 => absurd hok (by simp [h1])⟩
    rw [List.count_eq_zero.mpr hnm]
    omega

/-- C5 (witness): a run in which the receiver acknowledges the header and
then goes silent — the single chunk exhausts its retries, `ABORT` is the
final packet, and the transfer fails. -/
theorem C5_witness :
    (send_file [65] "a" [some "ACK:0"]).1 = false ∧
    ∃ t, (send_file [65] "a" [some "ACK:0"]).2 = t ++ ["ABORT"] :=
  (C5_abort_discipline [65] "a" [some "ACK:0"]).2.1 (by decide)

/-! ### Claim C7 -/

/-- C7 (counterexample): while waiting for `ACK:5`, a stale `ACK:3` does
not leave the sender waiting out the timeout — `wait_for_ack` returns
immediately with reason `unexpected`, and in the retry loop the packet is
retransmitted: with read script `[ACK:3, ACK:5]` the packet is emitted
twice (a retransmission that also consumed a retry), not once as the
claim requires. -/
theorem C7_counterexample :
    wait_for_ack 5 (some "ACK:3") = (false, "unexpected: ACK:3") ∧
    (attemptLoop 5 "p" 5 [some "ACK:3", some "ACK:5"]).trace = ["p", "p"] ∧
    (attemptLoop 5 "p" 5 [some "ACK:3", some "ACK:5"]).ok = true := by
  refine ⟨by decide, by decide, by decide⟩

/-- C7 (amended): any received record other than `ACK:<seq>`, `NACK:<seq>`
or `ABORT` makes `wait_for_ack` return failure immediately (reason
`"unexpected: <line>"` — the remaining timeout is not waited out), and the
sender's retry loop then retransmits the packet, consuming one of its
retries. -/
theorem C7_unexpected_retransmits (seq : Int) (l : String)
    (h1 : l ≠ "ACK:" ++ toString seq) (h2 : l ≠ "NACK:" ++ toString seq)
    (h3 : l ≠ "ABORT") :
    wait_for_ack seq (some l) = (false, "unexpected: " ++ l) ∧
    ∀ pkt n rest, attemptLoop seq pkt (n + 1) (some l :: rest) =
      ⟨pkt :: (attemptLoop seq pkt n rest).trace, (attemptLoop seq pkt n rest).ok,
        (attemptLoop seq pkt n rest).rest⟩ := by
  have hw : wait_for_ack seq (some l) = (false, "unexpected: " ++ l) := by
    simp [wait_for_ack, h1, h2, h3]
  refine ⟨hw, fun pkt n rest => ?_⟩
  conv_lhs => rw [attemptLoop]
  simp [hw]

/-- C7 (witness): the amended behavior at `seq = 5` with the stale line
`ACK:3`. -/
theorem C7_witness :
    wait_for_ack 5 (some "ACK:3") = (false, "unexpected: ACK:3") ∧
    attemptLoop 5 "p" 1 [some "ACK:3"] =
      ⟨"p" :: (attemptLoop 5 "p" 0 []).trace, (attemptLoop 5 "p" 0 []).ok,
        (attemptLoop 5 "p" 0 []).rest⟩ :=
  ⟨(C7_unexpected_retransmits 5 "ACK:3" (by decide) (by decide) (by decide)).1,
   (C7_unexpected_retransmits 5 "ACK:3" (by decide) (by decide) (by decide)).2 "p" 0 []⟩

/-! ### Helper lemmas: receiver store, ranges, reassembly -/

theorem mem_storeChunk (s seq : Int) (d dd : List Nat) :
    ∀ c : List (Int × List Nat), (s, dd) ∈ storeChunk seq d c →
      (s, dd) ∈ c ∨ (s = seq ∧ dd = d) := by
  intro c
  induction c with
  | nil =>
    intro h
    simp only [storeChunk, List.mem_singleton, Prod.mk.injEq] at h
    right
    exact h
  | cons kv t ih =>
    obtain ⟨k, v⟩ := kv
    intro h
    unfold storeChunk at h
    split at h
    · rcases List.mem_cons.mp h with heq | ht
      · simp only [Prod.mk.injEq] at heq
        right
        rename_i hk
        exact ⟨heq.1.trans hk, heq.2⟩
      · left
        exact List.mem_cons_of_mem _ ht
    · rcases List.mem_cons.mp h with heq | ht
      · left
        rw [heq]
        exact List.mem_cons_self _ _
      · rcases ih ht with h1 | h1
        · left
          exact List.mem_cons_of_mem _ h1
        · right
          exact h1

theorem lookupChunk_none_iff (seq : Int) :
    ∀ c : List (Int × List Nat), lookupChunk seq c = none ↔ seq ∉ c.map Prod.fst := by
  intro c
  induction c with
  | nil => simp [lookupChunk]
  | cons kv t ih =>
    obtain ⟨k, v⟩ := kv
    unfold lookupChunk
    by_cases hk : k = seq
    · subst hk
      simp
    · simp only [hk, if_false, List.map_cons, List.mem_cons]
      rw [ih]
      constructor
      · intro h hc
        rcases hc with hc | hc
        · exact hk hc.symm
        · exact h hc
      · intro h hc
        exact h (Or.inr hc)

theorem lookupChunk_isSome_iff (seq : Int) (c : List (Int × List Nat)) :
    (lookupChunk seq c).isSome = true ↔ seq ∈ c.map Prod.fst := by
  rcases h : lookupChunk seq c with _ | d
  · simp only [Option.isSome_none, Bool.false_eq_true, false_iff]
    exact (lookupChunk_none_iff seq c).mp h
  · simp only [Option.isSome_some, true_iff]
    by_contra hm
    exact Option.noConfusion (((lookupChunk_none_iff seq c).mpr hm).symm.trans h)

theorem mem_seqRange (total i : Int) : i ∈ seqRange total ↔ 1 ≤ i ∧ i ≤ total := by
  unfold seqRange
  split
  · rename_i h
    simp only [List.not_mem_nil, false_iff]
    omega
  · rename_i h
    have ht : (total.toNat : Int) = total := Int.toNat_of_nonneg (by omega)
    simp only [List.mem_map, List.mem_range]
    constructor
    · rintro ⟨n, hn, rfl⟩
      omega
    · rintro ⟨h1, h2⟩
      have hi : ((i - 1).toNat : Int) = i - 1 := Int.toNat_of_nonneg (by omega)
      refine ⟨(i - 1).toNat, by omega, by omega⟩

theorem seqRange_nodup (total : Int) : (seqRange total).Nodup := by
  unfold seqRange
  split
  · simp
  · have hinj : Function.Injective (fun (n : Nat) => (n : Int) + 1) := by
      intro a b hab
      simpa using hab
    exact List.Nodup.map hinj (List.nodup_range _)

theorem seqRange_length (total : Int) : (seqRange total).length = total.toNat := by
  unfold seqRange
  split
  · simp
    omega
  · simp

theorem reassemble_isSome (c : List (Int × List Nat)) :
    ∀ L : List Int, (∀ i ∈ L, (lookupChunk i c).isSome = true) →
      ∃ fd, reassemble c L = some fd := by
  intro L
  induction L with
  | nil => intro _; exact ⟨[], rfl⟩
  | cons i t ih =>
    intro h
    obtain ⟨fd, hfd⟩ := ih (fun j hj => h j (List.mem_cons_of_mem _ hj))
    obtain ⟨d, hd⟩ := Option.isSome_iff_exists.mp (h i (List.mem_cons_self _ _))
    exact ⟨d ++ fd, by simp [reassemble, hd, hfd]⟩

theorem chunks_length_lt (c : List (Int × List Nat)) (total i : Int)
    (hk : ∀ k ∈ c.map Prod.fst, 1 ≤ k ∧ k ≤ total)
    (hnd : (c.map Prod.fst).Nodup)
    (h1 : 1 ≤ i) (h2 : i ≤ total) (hmiss : i ∉ c.map Prod.fst) :
    (c.length : Int) < total := by
  have hlen : c.length = (c.map Prod.fst).length := (List.length_map _ _).symm
  have hsub : (c.map Prod.fst).toFinset ⊆ (seqRange total).toFinset.erase i := by
    intro k hk'
    rw [List.mem_toFinset] at hk'
    rw [Finset.mem_erase, List.mem_toFinset, mem_seqRange]
    exact ⟨fun he => hmiss (he ▸ hk'), hk k hk'⟩
  have hc1 : (c.map Prod.fst).toFinset.card = (c.map Prod.fst).length :=
    List.toFinset_card_of_nodup hnd
  have hc2 : (seqRange total).toFinset.card = (seqRange total).length :=
    List.toFinset_card_of_nodup (seqRange_nodup total)
  have hmem : i ∈ (seqRange total).toFinset := by
    rw [List.mem_toFinset, mem_seqRange]
    exact ⟨h1, h2⟩
  have hcard := Finset.card_le_card hsub
  rw [Finset.card_erase_of_mem hmem, hc2, seqRange_length, hc1] at hcard
  omega

theorem chunks_length_eq (c : List (Int × List Nat)) (total : Int)
    (htot : 0 ≤ total)
    (hk : ∀ k ∈ c.map Prod.fst, 1 ≤ k ∧ k ≤ total)
    (hnd : (c.map Prod.fst).Nodup)
    (hall : ∀ i : Int, 1 ≤ i → i ≤ total → i ∈ c.map Prod.fst) :
    (c.length : Int) = total := by
  have hlen : c.length = (c.map Prod.fst).length := (List.length_map _ _).symm
  have heq : (c.map Prod.fst).toFinset = (seqRange total).toFinset := by
    apply Finset.Subset.antisymm
    · intro k hk'
      rw [List.mem_toFinset] at hk'
      rw [List.mem_toFinset, mem_seqRange]
      exact hk k hk'
    · intro k hk'
      rw [List.mem_toFinset, mem_seqRange] at hk'
      rw [List.mem_toFinset]
      exact hall k hk'.1 hk'.2
  have hc1 : (c.map Prod.fst).toFinset.card = (c.map Prod.fst).length :=
    List.toFinset_card_of_nodup hnd
  have hc2 : (seqRange total).toFinset.card = (seqRange total).length :=
    List.toFinset_card_of_nodup (seqRange_nodup total)
  have := congrArg Finset.card heq
  rw [hc1, hc2, seqRange_length] at this
  omega

/-! ### Helper lemmas: receiver step case analysis -/

theorem dataStep_accept (total : Int) (st : RecvState) (seq : Int) (c b : String)
    (d : List Nat) (hd : b64decode b = some d) (hc : calculate_crc16 d = c)
    (hnz : seq = st.expected → total ≠ 0) :
    dataStep total st seq c b = ⟨["ACK:" ++ toString seq], [],
      .inl ⟨storeChunk seq d st.chunks,
        if seq = st.expected then st.expected + 1 else st.expected⟩⟩ := by
  unfold dataStep
  rw [hd]
  by_cases hs : seq = st.expected
  · simp [hc, hs, hnz hs]
  · simp [hc, hs]

theorem dataStep_accept_crash (total : Int) (st : RecvState) (seq : Int) (c b : String)
    (d : List Nat) (hd : b64decode b = some d) (hc : calculate_crc16 d = c)
    (hs : seq = st.expected) (hz : total = 0) :
    dataStep total st seq c b = ⟨["ACK:" ++ toString seq], [], .inr .crashedDiv⟩ := by
  unfold dataStep
  rw [hd]
  simp [hc, hs, hz]

theorem dataStep_bad_b64 (total : Int) (st : RecvState) (seq : Int) (c b : String)
    (hd : b64decode b = none) :
    dataStep total st seq c b = ⟨["NACK:" ++ toString seq], [], .inl st⟩ := by
  unfold dataStep
  rw [hd]

theorem dataStep_bad_crc (total : Int) (st : RecvState) (seq : Int) (c b : String)
    (d : List Nat) (hd : b64decode b = some d) (hc : calculate_crc16 d ≠ c) :
    dataStep total st seq c b = ⟨["NACK:" ++ toString seq], [], .inl st⟩ := by
  unfold dataStep
  rw [hd]
  simp [hc]

theorem dataStep_next_shape (total : Int) (st : RecvState) (seq : Int) (c b : String) :
    (∃ st', (dataStep total st seq c b).next = Sum.inl st') ∨
    (total = 0 ∧ (dataStep total st seq c b).next = Sum.inr .crashedDiv) := by
  rcases hb : b64decode b with _ | d
  · rw [dataStep_bad_b64 total st seq c b hb]
    left
    exact ⟨st, rfl⟩
  · by_cases hc : calculate_crc16 d = c
    · by_cases hcrash : seq = st.expected ∧ total = 0
      · rw [dataStep_accept_crash total st seq c b d hb hc hcrash.1 hcrash.2]
        right
        exact ⟨hcrash.2, rfl⟩
      · rw [dataStep_accept total st seq c b d hb hc (fun hs hz => hcrash ⟨hs, hz⟩)]
        left
        exact ⟨_, rfl⟩
    · rw [dataStep_bad_crc total st seq c b d hb hc]
      left
      exact ⟨st, rfl⟩

theorem doneStep_count_ne (total : Int) (ex : String → Bool) (fuel : Nat)
    (fname : String) (st : RecvState) (claimed : String)
    (h : (st.chunks.length : Int) ≠ total) :
    doneStep total ex fuel fname st claimed = ⟨["ABORT"], [], .inr .failed⟩ := by
  unfold doneStep
  simp [h]

theorem doneStep_crash (total : Int) (ex : String → Bool) (fuel : Nat)
    (fname : String) (st : RecvState) (claimed : String)
    (h1 : (st.chunks.length : Int) = total)
    (h2 : reassemble st.chunks (seqRange total) = none) :
    doneStep total ex fuel fname st claimed = ⟨[], [], .inr .crashed⟩ := by
  unfold doneStep
  simp [h1, h2]

theorem doneStep_crc_fail (total : Int) (ex : String → Bool) (fuel : Nat)
    (fname : String) (st : RecvState) (claimed : String) (fd : List Nat)
    (h1 : (st.chunks.length : Int) = total)
    (h2 : reassemble st.chunks (seqRange total) = some fd)
    (h3 : calculate_crc16 fd ≠ claimed) :
    doneStep total ex fuel fname st claimed = ⟨["ABORT"], [], .inr .failed⟩ := by
  unfold doneStep
  simp [h1, h2, h3]

theorem doneStep_success (total : Int) (ex : String → Bool) (fuel : Nat)
    (fname : String) (st : RecvState) (claimed : String) (fd : List Nat) (p : String)
    (h1 : (st.chunks.length : Int) = total)
    (h2 : reassemble st.chunks (seqRange total) = some fd)
    (h3 : calculate_crc16 fd = claimed)
    (h4 : resolvePath ex RECEIVE_DIR fname fuel = some p) :
    doneStep total ex fuel fname st claimed =
      ⟨["OK"], [FsOp.write p fd], .inr (.completed p fd)⟩ := by
  unfold doneStep
  simp [h1, h2, h3, h4]

theorem doneStep_next_inr (total : Int) (ex : String → Bool) (fuel : Nat)
    (fname : String) (st : RecvState) (claimed : String) :
    ∃ e, (doneStep total ex fuel fname st claimed).next = Sum.inr e := by
  unfold doneStep
  split
  · exact ⟨_, rfl⟩
  · split
    · exact ⟨_, rfl⟩
    · split
      · split
        · exact ⟨_, rfl⟩
        · exact ⟨_, rfl⟩
      · exact ⟨_, rfl⟩

theorem tag_done_not_data (l : String) (h : hasTag "DONE:" l = true) :
    hasTag "DATA:" l = false := by
  unfold hasTag at *
  simp only [decide_eq_true_eq] at h
  have e1 : ("DONE:" : String).data.length = 5 := by decide
  have e2 : ("DATA:" : String).data.length = 5 := by decide
  rw [e1] at h
  rw [e2, h]
  decide

theorem recvStep_none_eq (total : Int) (ex : String → Bool) (fuel : Nat)
    (fname : String) (st : RecvState) :
    recvStep total ex fuel fname st none =
      ⟨["NACK:" ++ toString st.expected], [], .inl st⟩ := rfl

theorem recvStep_data_eq (total : Int) (ex : String → Bool) (fuel : Nat)
    (fname : String) (st : RecvState) (l : String) (sStr c b : String) (seq : Int)
    (htag : hasTag "DATA:" l = true) (hp : parseDataFields l = some (sStr, c, b))
    (hs : parseIntStr sStr = some seq) :
    recvStep total ex fuel fname st (some l) = dataStep total st seq c b := by
  unfold recvStep
  simp [htag, hp, hs]

theorem recvStep_done_eq (total : Int) (ex : String → Bool) (fuel : Nat)
    (fname : String) (st : RecvState) (l : String)
    (htag : hasTag "DONE:" l = true) :
    recvStep total ex fuel fname st (some l) =
      doneStep total ex fuel fname st ⟨(splitColonAll l.data).getD 1 []⟩ := by
  unfold recvStep
  simp [tag_done_not_data l htag, htag]

theorem recvStep_abort_eq (total : Int) (ex : String → Bool) (fuel : Nat)
    (fname : String) (st : RecvState) :
    recvStep total ex fuel fname st (some "ABORT") = ⟨[], [], .inr .aborted⟩ := by
  unfold recvStep
  simp [show hasTag "DATA:" "ABORT" = false from by decide,
    show hasTag "DONE:" "ABORT" = false from by decide]

theorem recvStep_other_eq (total : Int) (ex : String → Bool) (fuel : Nat)
    (fname : String) (st : RecvState) (l : String)
    (h1 : hasTag "DATA:" l = false) (h2 : hasTag "DONE:" l = false) (h3 : l ≠ "ABORT") :
    recvStep total ex fuel fname st (some l) = ⟨[], [], .inl st⟩ := by
  unfold recvStep
  simp [h1, h2, h3]

theorem recvStep_inl_chunks (total : Int) (ex : String → Bool) (fuel : Nat)
    (fname : String) (st : RecvState) (line : Option String) (e : List String)
    (f : List FsOp) (st' : RecvState)
    (h : recvStep total ex fuel fname st line = ⟨e, f, .inl st'⟩) :
    st'.chunks = st.chunks ∨
    ∃ l sStr c b seq d, line = some l ∧ hasTag "DATA:" l = true ∧
      parseDataFields l = some (sStr, c, b) ∧ parseIntStr sStr = some seq ∧
      b64decode b = some d ∧ calculate_crc16 d = c ∧
      st'.chunks = storeChunk seq d st.chunks := by
  cases line with
  | none =>
    rw [recvStep_none_eq] at h
    simp only [StepRes.mk.injEq, Sum.inl.injEq] at h
    left
    rw [← h.2.2]
  | some l =>
    by_cases hd : hasTag "DATA:" l
    · rcases hp : parseDataFields l with _ | ⟨sStr, c, b⟩
      · left
        rw [show recvStep total ex fuel fname st (some l) = ⟨[], [], .inl st⟩ from by
          unfold recvStep; simp [hd, hp]] at h
        simp only [StepRes.mk.injEq, Sum.inl.injEq] at h
        rw [← h.2.2]
      · rcases hs : parseIntStr sStr with _ | seq
        · left
          rw [show recvStep total ex fuel fname st (some l) = ⟨[], [], .inl st⟩ from by
            unfold recvStep; simp [hd, hp, hs]] at h
          simp only [StepRes.mk.injEq, Sum.inl.injEq] at h
          rw [← h.2.2]
        · rw [recvStep_data_eq total ex fuel fname st l sStr c b seq hd hp hs] at h
          rcases hb : b64decode b with _ | d
          · left
            rw [dataStep_bad_b64 total st seq c b hb] at h
            simp only [StepRes.mk.injEq, Sum.inl.injEq] at h
            rw [← h.2.2]
          · by_cases hc : calculate_crc16 d = c
            · by_cases hcrash : seq = st.expected ∧ total = 0
              · exfalso
                rw [dataStep_accept_crash total st seq c b d hb hc hcrash.1 hcrash.2] at h
                simp only [StepRes.mk.injEq] at h
                exact Sum.noConfusion h.2.2
              · rw [dataStep_accept total st seq c b d hb hc
                  (fun hse hz => hcrash ⟨hse, hz⟩)] at h
                simp only [StepRes.mk.injEq, Sum.inl.injEq] at h
                right
                refine ⟨l, sStr, c, b, seq, d, rfl, hd, hp, hs, hb, hc, ?_⟩
                rw [← h.2.2]
            · left
              rw [dataStep_bad_crc total st seq c b d hb hc] at h
              simp only [StepRes.mk.injEq, Sum.inl.injEq] at h
              rw [← h.2.2]
    · by_cases hdo : hasTag "DONE:" l
      · exfalso
        rw [recvStep_done_eq total ex fuel fname st l hdo] at h
        obtain ⟨e', he'⟩ := doneStep_next_inr total ex fuel fname st
          ⟨(splitColonAll l.data).getD 1 []⟩
        rw [h] at he'
        simp at he'
      · by_cases hab : l = "ABORT"
        · exfalso
          subst hab
          rw [recvStep_abort_eq] at h
          simp only [StepRes.mk.injEq] at h
          exact Sum.noConfusion h.2.2
        · left
          rw [recvStep_other_eq total ex fuel fname st l (by simpa using hd)
            (by simpa using hdo) hab] at h
          simp only [StepRes.mk.injEq, Sum.inl.injEq] at h
          rw [← h.2.2]

theorem recvStep_inr_line (total : Int) (ex : String → Bool) (fuel : Nat)
    (fname : String) (st : RecvState) (line : Option String) (e : RxEnd)
    (h : (recvStep total ex fuel fname st line).next = .inr e) :
    ∃ l, line = some l ∧ (l = "ABORT" ∨ hasTag "DONE:" l = true ∨
      (hasTag "DATA:" l = true ∧ total = 0 ∧ e = .crashedDiv)) := by
  cases line with
  | none =>
    rw [recvStep_none_eq] at h
    exact Sum.noConfusion h
  | some l =>
    refine ⟨l, rfl, ?_⟩
    by_cases hd : hasTag "DATA:" l
    · rcases hp : parseDataFields l with _ | ⟨sStr, c, b⟩
      · exfalso
        rw [show recvStep total ex fuel fname st (some l) = ⟨[], [], .inl st⟩ from by
          unfold recvStep; simp [hd, hp]] at h
        exact Sum.noConfusion h
      · rcases hs : parseIntStr sStr with _ | seq
        · exfalso
          rw [show recvStep total ex fuel fname st (some l) = ⟨[], [], .inl st⟩ from by
            unfold recvStep; simp [hd, hp, hs]] at h
          exact Sum.noConfusion h
        · rw [recvStep_data_eq total ex fuel fname st l sStr c b seq hd hp hs] at h
          rcases dataStep_next_shape total st seq c b with ⟨st1, hst1⟩ | ⟨hz, hcr⟩
          · exact Sum.noConfusion (hst1.symm.trans h)
          · right
            right
            exact ⟨hd, hz, (Sum.inr.inj (hcr.symm.trans h)).symm⟩
    · by_cases hdo : hasTag "DONE:" l
      · right
        left
        exact hdo
      · left
        by_contra hab
        rw [recvStep_other_eq total ex fuel fname st l (by simpa using hd)
          (by simpa using hdo) hab] at h
        exact Sum.noConfusion h

theorem runSession_justified (total : Int) (ex : String → Bool) (fuel : Nat)
    (fname : String) :
    ∀ (L : List (Option String)) (st : RecvState) (tr : List String) (fs : List FsOp)
      (st' : RecvState),
      runSession total ex fuel fname st L = (tr, fs, .inl st') →
      ∀ s d, (s, d) ∈ st'.chunks → (s, d) ∈ st.chunks ∨ dataJustified L s d := by
  intro L
  induction L with
  | nil =>
    intro st tr fs st' h s d hm
    unfold runSession at h
    simp only [Prod.mk.injEq, Sum.inl.injEq] at h
    left
    rw [h.2.2]
    exact hm
  | cons l rest ih =>
    intro st tr fs st' h s d hm
    unfold runSession at h
    split at h
    · rename_i st1 hnext
      have h3 := congrArg (fun p : List String × List FsOp × (RecvState ⊕ RxEnd) => p.2.2) h
      simp only at h3
      have hrun : runSession total ex fuel fname st1 rest =
          ((runSession total ex fuel fname st1 rest).1,
           (runSession total ex fuel fname st1 rest).2.1, .inl st') := by
        rw [← h3]
      have hstep : recvStep total ex fuel fname st l =
          ⟨(recvStep total ex fuel fname st l).emits,
           (recvStep total ex fuel fname st l).fs, .inl st1⟩ := by
        rw [← hnext]
      rcases ih st1 _ _ _ hrun s d hm with hmem | hj
      · rcases recvStep_inl_chunks total ex fuel fname st l _ _ st1 hstep with hsame | hstore
        · left
          rw [← hsame]
          exact hmem
        · obtain ⟨l', sStr, c, b, seq, dd, hline, htag, hp, hs, hb, hc, hch⟩ := hstore
          rw [hch] at hmem
          rcases mem_storeChunk s seq dd d st.chunks hmem with hin | ⟨rfl, rfl⟩
          · left
            exact hin
          · right
            exact ⟨l', sStr, c, b, hline ▸ List.mem_cons_self _ _, htag, hp, hs, hb, hc⟩
      · right
        obtain ⟨l', sStr, c, b, hmem', hrest⟩ := hj
        exact ⟨l', sStr, c, b, List.mem_cons_of_mem _ hmem', hrest⟩
    · rename_i e hnext
      have h3 := congrArg (fun p : List String × List FsOp × (RecvState ⊕ RxEnd) => p.2.2) h
      simp only at h3
      exact Sum.noConfusion h3

/-! ### Claim C2 -/

theorem ack_ne_nack (x : String) : ("ACK:" ++ x) ≠ ("NACK:" ++ x) := by
  intro h
  have h2 := congrArg String.length h
  rw [String.length_append, String.length_append] at h2
  have e1 : ("ACK:" : String).length = 4 := by decide
  have e2 : ("NACK:" : String).length = 5 := by decide
  omega

/-- C2 (confirmed): a well-formed DATA record is stored and acknowledged
with `ACK:<seq>` exactly when its base64 payload decodes and the CRC16
recomputed over the decoded bytes equals the claimed value; a decode
failure or CRC mismatch produces `NACK:<seq>` and leaves the store
untouched; consequently every chunk present in the store after any run
from the empty session store comes from some DATA record of the script
whose payload decoded to those bytes with a matching CRC (invariant
I2). The CRC-verified store-and-ACK holds in both execution shapes:
normally the session continues with the chunk stored, and in the
degenerate `total_chunks = 0` in-order case the chunk is stored and
`ACK:<seq>` emitted just the same before the progress division of line
282 kills the session. -/
theorem C2_store_iff_verified :
    (∀ (total : Int) (st : RecvState) (seq : Int) (c b : String) (d : List Nat),
      b64decode b = some d → calculate_crc16 d = c → (seq = st.expected → total ≠ 0) →
      dataStep total st seq c b = ⟨["ACK:" ++ toString seq], [],
        .inl ⟨storeChunk seq d st.chunks,
          if seq = st.expected then st.expected + 1 else st.expected⟩⟩) ∧
    (∀ (total : Int) (st : RecvState) (seq : Int) (c b : String) (d : List Nat),
      b64decode b = some d → calculate_crc16 d = c → seq = st.expected → total = 0 →
      dataStep total st seq c b = ⟨["ACK:" ++ toString seq], [], .inr .crashedDiv⟩) ∧
    (∀ (total : Int) (st : RecvState) (seq : Int) (c b : String),
      b64decode b = none →
      dataStep total st seq c b = ⟨["NACK:" ++ toString seq], [], .inl st⟩) ∧
    (∀ (total : Int) (st : RecvState) (seq : Int) (c b : String) (d : List Nat),
      b64decode b = some d → calculate_crc16 d ≠ c →
      dataStep total st seq c b = ⟨["NACK:" ++ toString seq], [], .inl st⟩) ∧
    (∀ (total : Int) (st : RecvState) (seq : Int) (c b : String),
      (dataStep total st seq c b).emits = ["ACK:" ++ toString seq] ↔
      ∃ d, b64decode b = some d ∧ calculate_crc16 d = c) ∧
    (∀ (total : Int) (ex : String → Bool) (fuel : Nat) (fname : String)
      (L : List (Option String)) (tr : List String) (fs : List FsOp) (st' : RecvState),
      runSession total ex fuel fname initState L = (tr, fs, .inl st') →
      ∀ s d, (s, d) ∈ st'.chunks → dataJustified L s d) := by
  refine ⟨dataStep_accept, dataStep_accept_crash, dataStep_bad_b64, dataStep_bad_crc,
    ?_, ?_⟩
  · intro total st seq c b
    constructor
    · intro hem
      rcases hb : b64decode b with _ | d
      · rw [dataStep_bad_b64 total st seq c b hb] at hem
        simp only [StepRes.emits] at hem
        exact absurd (List.cons_eq_cons.mp hem).1.symm (ack_ne_nack (toString seq))
      · by_cases hc : calculate_crc16 d = c
        · exact ⟨d, rfl, hc⟩
        · rw [dataStep_bad_crc total st seq c b d hb hc] at hem
          simp only [StepRes.emits] at hem
          exact absurd (List.cons_eq_cons.mp hem).1.symm (ack_ne_nack (toString seq))
    · rintro ⟨d, hb, hc⟩
      by_cases hcrash : seq = st.expected ∧ total = 0
      · rw [dataStep_accept_crash total st seq c b d hb hc hcrash.1 hcrash.2]
      · rw [dataStep_accept total st seq c b d hb hc (fun hs hz => hcrash ⟨hs, hz⟩)]
  · intro total ex fuel fname L tr fs st' hrun s d hm
    rcases runSession_justified total ex fuel fname L initState tr fs st' hrun s d hm
      with hin | hj
    · simp [initState] at hin
    · exact hj

/-- C2 (witness): the acceptance equation evaluated on a concrete store
and the record `DATA:2:b915:QQ==` (payload `"A"`, CRC `b915`), in a
session announcing nine chunks. -/
theorem C2_witness :
    dataStep 9 ⟨[(7, [1])], 3⟩ 2 "b915" "QQ==" =
      ⟨["ACK:2"], [], .inl ⟨[(7, [1]), (2, [65])], 3⟩⟩ := by
  have h := C2_store_iff_verified.1 9 ⟨[(7, [1])], 3⟩ 2 "b915" "QQ==" [65]
    (by decide) (by decide) (by decide)
  rw [h]
  decide

/-! ### Claim C8 -/

/-- C8 (counterexample): with the store already holding seq 2 and
`next_expected = 1`, a valid `DATA:1` advances `next_expected` only to 2 —
which is already present in the store — while the smallest absent
sequence number is 3: the code does not skip past already-stored
chunks. -/
theorem C8_counterexample :
    dataStep 2 ⟨[(2, [66])], 1⟩ 1 "b915" "QQ==" =
      ⟨["ACK:1"], [], .inl ⟨[(2, [66]), (1, [65])], 2⟩⟩ ∧
    lookupChunk 2 [((2 : Int), [66]), (1, [65])] = some [66] ∧
    lookupChunk 3 [((2 : Int), [66]), (1, [65])] = none := by
  refine ⟨by decide, by decide, by decide⟩

/-- C8 (amended): when a validated chunk's seq equals `next_expected`, the
receiver advances `next_expected` by exactly one (`expected_seq += 1`); it
does not skip to the first missing slot, so after out-of-order arrivals
the new `next_expected` may already be present in the store. The advanced
state is observable whenever the announced `total_chunks` is nonzero; for
`total_chunks = 0` the increment is immediately followed by the uncaught
`ZeroDivisionError` of the progress line 282, so the session dies before
the new state is ever used. -/
theorem C8_increment_by_one (total : Int) (st : RecvState) (seq : Int) (c b : String)
    (d : List Nat) (hd : b64decode b = some d) (hc : calculate_crc16 d = c)
    (hs : seq = st.expected) (htot : total ≠ 0) :
    dataStep total st seq c b = ⟨["ACK:" ++ toString seq], [],
      .inl ⟨storeChunk seq d st.chunks, st.expected + 1⟩⟩ := by
  rw [dataStep_accept total st seq c b d hd hc (fun _ => htot), hs]
  simp

/-- C8 (witness): the increment evaluated at a concrete in-order step of a
one-chunk session. -/
theorem C8_witness :
    dataStep 1 ⟨[], 1⟩ 1 "b915" "QQ==" = ⟨["ACK:1"], [], .inl ⟨[(1, [65])], 2⟩⟩ := by
  have h := C8_increment_by_one 1 ⟨[], 1⟩ 1 "b915" "QQ==" [65] (by decide) (by decide)
    rfl (by decide)
  rw [h]
  decide

/-! ### Claim C9 -/

/-- C9 (confirmed): the receiver's DATA handling has no range check on the
sequence number — any integer seq with a valid payload is stored and
ACKed (the first conjunct holds for every `seq : Int`, including 0,
negative values, and values above `total_chunks`; the only `total_chunks`
sensitivity of the DATA path is the unrelated progress-division crash for
`total_chunks = 0`, excluded here by its guard); the DONE completeness
check compares only the count of stored chunks with `total_chunks`
(second and third conjuncts); and on the concrete script that stores seq
0 and then sends DONE, the count check passes but the reassembly join
over `range(1, total+1)` hits the missing key 1 — Python's uncaught
`KeyError`, the `.crashed` outcome. -/
theorem C9_out_of_range_accepted :
    (∀ (total : Int) (ex : String → Bool) (fuel : Nat) (fname : String)
      (st : RecvState) (l sStr c b : String) (seq : Int) (d : List Nat),
      hasTag "DATA:" l = true → parseDataFields l = some (sStr, c, b) →
      parseIntStr sStr = some seq → b64decode b = some d → calculate_crc16 d = c →
      (seq = st.expected → total ≠ 0) →
      recvStep total ex fuel fname st (some l) =
        ⟨["ACK:" ++ toString seq], [],
          .inl ⟨storeChunk seq d st.chunks,
            if seq = st.expected then st.expected + 1 else st.expected⟩⟩) ∧
    (∀ (total : Int) (ex : String → Bool) (fuel : Nat) (fname : String)
      (st : RecvState) (claimed : String),
      (st.chunks.length : Int) ≠ total →
      doneStep total ex fuel fname st claimed = ⟨["ABORT"], [], .inr .failed⟩) ∧
    (∀ (total : Int) (ex : String → Bool) (fuel : Nat) (fname : String)
      (st : RecvState) (claimed : String),
      (st.chunks.length : Int) = total →
      reassemble st.chunks (seqRange total) = none →
      doneStep total ex fuel fname st claimed = ⟨[], [], .inr .crashed⟩) ∧
    runSession 1 (fun _ => false) 1 "a.txt" initState
      [some "DATA:0:b915:QQ==", some "DONE:ffff"] = (["ACK:0"], [], .inr .crashed) := by
  refine ⟨?_, doneStep_count_ne, doneStep_crash, by decide⟩
  intro total ex fuel fname st l sStr c b seq d htag hp hs hb hc hnz
  rw [recvStep_data_eq total ex fuel fname st l sStr c b seq htag hp hs]
  exact dataStep_accept total st seq c b d hb hc hnz

/-- C9 (witness): the no-range-check acceptance applied to the concrete
out-of-range record `DATA:-2:b915:QQ==` against a session announcing one
chunk. -/
theorem C9_witness :
    recvStep 1 (fun _ => false) 1 "a.txt" ⟨[], 5⟩ (some "DATA:-2:b915:QQ==") =
      ⟨["ACK:-2"], [], .inl ⟨[(-2, [65])], 5⟩⟩ := by
  have h := C9_out_of_range_accepted.1 1 (fun _ => false) 1 "a.txt" ⟨[], 5⟩
    "DATA:-2:b915:QQ==" "-2" "b915" "QQ==" (-2) [65]
    (by decide) (by decide) (by decide) (by decide) (by decide) (by decide)
  rw [h]
  decide

/-! ### Claim C10 -/

/-- C10 (counterexample): two session endings outside the claim's list.
First, a DONE record that passes the completeness (count) check and never
reaches the CRC check or a successful save: storing seqs 1 and 3 against
`total_chunks = 2` makes the count match, and reassembly then crashes on
the missing key 2 (`.crashed`, the uncaught `KeyError` — no `ABORT`, no
`OK`, no file). Second, a session can even end on a DATA record: with
`total_chunks = 0`, a validated in-order `DATA:1` is stored and ACKed and
the progress computation `len(chunks) / total_chunks` then raises an
uncaught `ZeroDivisionError` (`.crashedDiv`) — the session ends on a DATA
record, which the claim does not list at all. -/
theorem C10_counterexample :
    runSession 2 (fun _ => false) 1 "f.txt" initState
      [some "DATA:1:b915:QQ==", some "DATA:3:b915:QQ==", some "DONE:0000"] =
      (["ACK:1", "ACK:3"], [], .inr .crashed) ∧
    runSession 0 (fun _ => false) 1 "z.txt" initState [some "DATA:1:b915:QQ=="] =
      (["ACK:1"], [], .inr .crashedDiv) ∧
    RxEnd.crashed ≠ RxEnd.failed ∧ RxEnd.crashed ≠ RxEnd.aborted ∧
    RxEnd.crashedDiv ≠ RxEnd.failed ∧ RxEnd.crashedDiv ≠ RxEnd.aborted ∧
    "ABORT" ∉ ["ACK:1", "ACK:3"] ∧ "OK" ∉ ["ACK:1", "ACK:3"] := by
  refine ⟨by decide, by decide, by decide, by decide, by decide, by decide, by decide,
    by decide⟩

/-- C10 (amended): expiry of the per-read timeout never terminates an
active receive session — on a `None` read the receiver emits
`NACK:<next_expected>` and continues in the same state. The session
reaches a terminal outcome only on an `ABORT` line, on a `DONE:` line
(ending in failure, success, or — when the count check passes with an
in-range key missing — an uncaught `KeyError`), or, when the announced
`total_chunks` is 0, on a validated in-order `DATA:` line whose progress
computation `len(chunks) / total_chunks` raises an uncaught
`ZeroDivisionError` after the chunk is stored and ACKed. In particular,
for `total_chunks ≠ 0` only `ABORT` or `DONE:` lines can end the
session. -/
theorem C10_timeout_never_ends (total : Int) (ex : String → Bool) (fuel : Nat)
    (fname : String) :
    (∀ st : RecvState, recvStep total ex fuel fname st none =
      ⟨["NACK:" ++ toString st.expected], [], .inl st⟩) ∧
    (∀ (st : RecvState) (line : Option String) (e : RxEnd),
      (recvStep total ex fuel fname st line).next = .inr e →
      ∃ l, line = some l ∧ (l = "ABORT" ∨ hasTag "DONE:" l = true ∨
        (hasTag "DATA:" l = true ∧ total = 0 ∧ e = .crashedDiv))) ∧
    (total ≠ 0 → ∀ (st : RecvState) (line : Option String) (e : RxEnd),
      (recvStep total ex fuel fname st line).next = .inr e →
      ∃ l, line = some l ∧ (l = "ABORT" ∨ hasTag "DONE:" l = true)) := by
  refine ⟨fun st => recvStep_none_eq total ex fuel fname st,
    fun st line e h => recvStep_inr_line total ex fuel fname st line e h, ?_⟩
  intro htot st line e h
  obtain ⟨l, hline, hcases⟩ := recvStep_inr_line total ex fuel fname st line e h
  rcases hcases with hab | hdo | ⟨_, hz, _⟩
  · exact ⟨l, hline, Or.inl hab⟩
  · exact ⟨l, hline, Or.inr hdo⟩
  · exact absurd hz htot

/-- C10 (witness): the timeout conjunct at a concrete state, and the
nonzero-total classification applied to a concrete terminating step (a
received `ABORT`). -/
theorem C10_witness :
    (recvStep 1 (fun _ => false) 1 "a.txt" initState none =
      ⟨["NACK:1"], [], .inl initState⟩) ∧
    ∃ l, (some "ABORT" : Option String) = some l ∧
      (l = "ABORT" ∨ hasTag "DONE:" l = true) := by
  constructor
  · have h := (C10_timeout_never_ends 1 (fun _ => false) 1 "a.txt").1 initState
    rw [h]
    decide
  · exact (C10_timeout_never_ends 1 (fun _ => false) 1 "a.txt").2.2 (by decide) initState
      (some "ABORT") .aborted (by decide)

/-! ### Claim C1 -/

/-- C1 (counterexample): with the store holding only the out-of-range seq
0 and `total_chunks = 1`, the sequence number 1 lies in `[1, 1]` and is
absent from the store — the claim requires `ABORT` to be emitted, but the
count check (`len(chunks) != total_chunks`) passes (1 = 1) and the step
emits nothing and crashes with the uncaught `KeyError` of the reassembly
join instead. -/
theorem C1_counterexample :
    recvStep 1 (fun _ => false) 1 "a.txt" ⟨[(0, [65])], 1⟩ (some "DONE:b915") =
      ⟨[], [], .inr .crashed⟩ ∧
    lookupChunk 1 [((0 : Int), [65])] = none ∧
    (([] : List String) ≠ ["ABORT"]) := by
  refine ⟨by decide, by decide, by decide⟩

/-- C1 (amended): when every stored chunk's sequence number lies in
`[1, total_chunks]` and the store's keys are distinct (as holds for any
store produced by a conforming sender): on a `DONE:` record, if some seq
in `[1, total_chunks]` is absent the receiver emits `ABORT` and fails with
no file written; otherwise the reassembly over seqs `1..total` succeeds,
and the whole-file CRC16 of the concatenation is compared with the claimed
value — on mismatch `ABORT` is emitted, the session fails and no file is
written; only when both checks pass is the file written (a single direct
write) and `OK` emitted. Without the in-range assumption the count-based
completeness check is weaker than the claim — see the counterexample. -/
theorem C1_done_checks (total : Int) (ex : String → Bool) (fuel : Nat) (fname : String)
    (st : RecvState) (l : String) (htag : hasTag "DONE:" l = true)
    (htot : 0 ≤ total)
    (hk : ∀ k ∈ st.chunks.map Prod.fst, 1 ≤ k ∧ k ≤ total)
    (hnd : (st.chunks.map Prod.fst).Nodup) :
    ((∃ i : Int, 1 ≤ i ∧ i ≤ total ∧ lookupChunk i st.chunks = none) →
      recvStep total ex fuel fname st (some l) = ⟨["ABORT"], [], .inr .failed⟩) ∧
    ((∀ i : Int, 1 ≤ i → i ≤ total → (lookupChunk i st.chunks).isSome = true) →
      ∃ fd, reassemble st.chunks (seqRange total) = some fd ∧
        (calculate_crc16 fd ≠ (⟨(splitColonAll l.data).getD 1 []⟩ : String) →
          recvStep total ex fuel fname st (some l) = ⟨["ABORT"], [], .inr .failed⟩) ∧
        (calculate_crc16 fd = (⟨(splitColonAll l.data).getD 1 []⟩ : String) →
          ∀ p, resolvePath ex RECEIVE_DIR fname fuel = some p →
            recvStep total ex fuel fname st (some l) =
              ⟨["OK"], [FsOp.write p fd], .inr (.completed p fd)⟩)) := by
  constructor
  · rintro ⟨i, h1, h2, hmiss⟩
    rw [recvStep_done_eq total ex fuel fname st l htag]
    apply doneStep_count_ne
    have := chunks_length_lt st.chunks total i hk hnd h1 h2
      ((lookupChunk_none_iff i st.chunks).mp hmiss)
    omega
  · intro hall
    have hallmem : ∀ i : Int, 1 ≤ i → i ≤ total → i ∈ st.chunks.map Prod.fst :=
      fun i h1 h2 => (lookupChunk_isSome_iff i st.chunks).mp (hall i h1 h2)
    have hlen := chunks_length_eq st.chunks total htot hk hnd hallmem
    obtain ⟨fd, hfd⟩ := reassemble_isSome st.chunks (seqRange total)
      (fun i hi => hall i ((mem_seqRange total i).mp hi).1 ((mem_seqRange total i).mp hi).2)
    refine ⟨fd, hfd, ?_, ?_⟩
    · intro hne
      rw [recvStep_done_eq total ex fuel fname st l htag]
      exact doneStep_crc_fail total ex fuel fname st _ fd hlen hfd hne
    · intro heq p hp
      rw [recvStep_done_eq total ex fuel fname st l htag]
      exact doneStep_success total ex fuel fname st _ fd p hlen hfd heq hp

/-- C1 (witness): the success path evaluated on a complete one-chunk store
with a matching whole-file CRC. -/
theorem C1_witness :
    recvStep 1 (fun _ => false) 1 "a.txt" ⟨[(1, [65])], 2⟩ (some "DONE:b915") =
      ⟨["OK"], [FsOp.write "./lora_received/a.txt" [65]],
        .inr (.completed "./lora_received/a.txt" [65])⟩ := by
  have h := (C1_done_checks 1 (fun _ => false) 1 "a.txt" ⟨[(1, [65])], 2⟩ "DONE:b915"
    (by decide) (by decide) (by decide) (by decide)).2 (by
      intro i h1 h2
      have hi : i = 1 := by omega
      subst hi
      decide)
  obtain ⟨fd, hfd, _, hsucc⟩ := h
  have hfd65 : reassemble (⟨[(1, [65])], 2⟩ : RecvState).chunks (seqRange 1) =
      some [65] := by decide
  have hfd' : fd = [65] := (Option.some.inj (hfd65.symm.trans hfd)).symm
  subst hfd'
  exact hsucc (by decide) "./lora_received/a.txt" (by decide)

/-! ### Helper lemmas: path resolution -/

theorem digitChar_mem (n : Nat) :
    Nat.digitChar n ∈ ("0123456789abcdef*" : String).data := by
  rcases Nat.lt_or_ge n 16 with h | h
  · interval_cases n <;> decide
  · obtain ⟨m, rfl⟩ : ∃ m, n = m + 16 := ⟨n - 16, by omega⟩
    have heq : Nat.digitChar (m + 16) = '*' := by
      unfold Nat.digitChar
      simp
    rw [heq]
    decide

theorem toDigitsCore_mem (b : Nat) :
    ∀ (fuel n : Nat) (acc : List Char),
      (∀ c ∈ acc, c ∈ ("0123456789abcdef*" : String).data) →
      ∀ c ∈ Nat.toDigitsCore b fuel n acc, c ∈ ("0123456789abcdef*" : String).data := by
  intro fuel
  induction fuel with
  | zero => intro n acc hacc c hc; exact hacc c hc
  | succ f ih =>
    intro n acc hacc c hc
    unfold Nat.toDigitsCore at hc
    dsimp only at hc
    split at hc
    · rcases List.mem_cons.mp hc with rfl | h2
      · exact digitChar_mem _
      · exact hacc c h2
    · refine ih _ _ (fun c' hc' => ?_) c hc
      rcases List.mem_cons.mp hc' with rfl | h2
      · exact digitChar_mem _
      · exact hacc c' h2

theorem natToString_no_slash (k : Nat) : '/' ∉ (toString k).data := by
  intro h
  have heq : (toString k).data = Nat.toDigitsCore 10 (k + 1) k [] := rfl
  rw [heq] at h
  have := toDigitsCore_mem 10 (k + 1) k [] (by simp) '/' h
  exact absurd this (by decide)

theorem basename_no_slash (f : String) : '/' ∉ (basename f).data := by
  intro h
  have heq : (basename f).data = (f.data.reverse.takeWhile (fun c => c ≠ '/')).reverse := rfl
  rw [heq, List.mem_reverse] at h
  have := List.mem_takeWhile_imp h
  simp at this

theorem splitextChars_sub (l : List Char) :
    (∀ c ∈ (splitextChars l).1, c ∈ l) ∧ (∀ c ∈ (splitextChars l).2, c ∈ l) := by
  unfold splitextChars
  dsimp only
  split
  · exact ⟨fun c h => h, fun c h => by simp at h⟩
  · split
    · constructor
      · intro c h
        exact (List.take_sublist _ _).subset h
      · intro c h
        exact (List.drop_sublist _ _).subset h
    · exact ⟨fun c h => h, fun c h => by simp at h⟩

theorem candName_no_slash (stem extn : String) (k : Nat)
    (h1 : '/' ∉ stem.data) (h2 : '/' ∉ extn.data) :
    '/' ∉ (candName stem extn k).data := by
  unfold candName
  intro h
  simp only [String.data_append, List.mem_append] at h
  rcases h with ((h | h) | h) | h
  · exact h1 h
  · exact absurd h (by decide)
  · exact natToString_no_slash k h
  · exact h2 h

theorem resolveLoop_spec (ex : String → Bool) (dir stem extn : String) :
    ∀ (fuel k : Nat) (p : String), resolveLoop ex dir stem extn fuel k = some p →
      ex p = false ∧ ∃ k', k ≤ k' ∧ p = joinPath dir (candName stem extn k') ∧
        ∀ j, k ≤ j → j < k' → ex (joinPath dir (candName stem extn j)) = true := by
  intro fuel
  induction fuel with
  | zero => intro k p h; simp [resolveLoop] at h
  | succ f ih =>
    intro k p h
    unfold resolveLoop at h
    dsimp only at h
    split at h
    · rename_i hex
      obtain ⟨hp, k', hk', hpe, hall⟩ := ih (k + 1) p h
      refine ⟨hp, k', by omega, hpe, ?_⟩
      intro j hj1 hj2
      rcases Nat.eq_or_lt_of_le hj1 with rfl | hlt
      · exact hex
      · exact hall j (by omega) hj2
    · rename_i hex
      have hp := Option.some.inj h
      refine ⟨?_, k, le_refl _, hp.symm, fun j hj1 hj2 => by omega⟩
      rw [← hp]
      simpa using hex

theorem resolvePath_spec (ex : String → Bool) (dir f : String) (fuel : Nat) (p : String)
    (h : resolvePath ex dir f fuel = some p) :
    ex p = false ∧
    ((p = joinPath dir (basename f) ∧ ex (joinPath dir (basename f)) = false) ∨
     (ex (joinPath dir (basename f)) = true ∧
       ∃ k, 1 ≤ k ∧ p = joinPath dir (candName (splitext (basename f)).1
         (splitext (basename f)).2 k) ∧
         ∀ j, 1 ≤ j → j < k →
           ex (joinPath dir (candName (splitext (basename f)).1
             (splitext (basename f)).2 j)) = true)) := by
  unfold resolvePath at h
  dsimp only at h
  split at h
  · rename_i hex
    obtain ⟨hp, k', hk', hpe, hall⟩ := resolveLoop_spec ex dir _ _ fuel 1 p h
    exact ⟨hp, Or.inr ⟨hex, k', hk', hpe, hall⟩⟩
  · rename_i hex
    have hp := Option.some.inj h
    constructor
    · rw [← hp]
      simpa using hex
    · left
      exact ⟨hp.symm, by simpa using hex⟩

theorem dataStep_fs_nil (total : Int) (st : RecvState) (seq : Int) (c b : String) :
    (dataStep total st seq c b).fs = [] := by
  unfold dataStep
  rcases hb : b64decode b with _ | d
  · rfl
  · by_cases hc : calculate_crc16 d = c
    · by_cases hs : seq = st.expected
      · by_cases hz : total = 0
        · simp [hc, hs, hz]
        · simp [hc, hs, hz]
      · simp [hc, hs]
    · simp [hc]

theorem doneStep_fs_shape (total : Int) (ex : String → Bool) (fuel : Nat)
    (fname : String) (st : RecvState) (claimed : String) :
    (doneStep total ex fuel fname st claimed).fs = [] ∨
    ∃ p d, (doneStep total ex fuel fname st claimed).fs = [FsOp.write p d] ∧
      resolvePath ex RECEIVE_DIR fname fuel = some p := by
  unfold doneStep
  split
  · left; rfl
  · split
    · left; rfl
    · split
      · split
        · rename_i p hres
          right
          exact ⟨p, _, rfl, hres⟩
        · left; rfl
      · left; rfl

theorem recvStep_fs_shape (total : Int) (ex : String → Bool) (fuel : Nat)
    (fname : String) (st : RecvState) (line : Option String) :
    (recvStep total ex fuel fname st line).fs = [] ∨
    ∃ p d, (recvStep total ex fuel fname st line).fs = [FsOp.write p d] ∧
      resolvePath ex RECEIVE_DIR fname fuel = some p := by
  cases line with
  | none => left; rfl
  | some l =>
    by_cases hd : hasTag "DATA:" l
    · rcases hp : parseDataFields l with _ | ⟨sStr, c, b⟩
      · left
        rw [show recvStep total ex fuel fname st (some l) = ⟨[], [], .inl st⟩ from by
          unfold recvStep; simp [hd, hp]]
      · rcases hs : parseIntStr sStr with _ | seq
        · left
          rw [show recvStep total ex fuel fname st (some l) = ⟨[], [], .inl st⟩ from by
            unfold recvStep; simp [hd, hp, hs]]
        · rw [recvStep_data_eq total ex fuel fname st l sStr c b seq hd hp hs]
          left
          exact dataStep_fs_nil total st seq c b
    · by_cases hdo : hasTag "DONE:" l
      · rw [recvStep_done_eq total ex fuel fname st l hdo]
        exact doneStep_fs_shape total ex fuel fname st _
      · by_cases hab : l = "ABORT"
        · subst hab
          rw [recvStep_abort_eq]
          left; rfl
        · rw [recvStep_other_eq total ex fuel fname st l (by simpa using hd)
            (by simpa using hdo) hab]
          left; rfl

/-! ### Claim C6 -/

/-- C6 (counterexample): the save is not atomic. On a successful DONE the
receiver's only filesystem effect is a single direct write to the final
path; the spec's atomic-write shape (write to a distinct temporary path in
the same directory, then rename onto the final path) does not hold for
that trace — there is no rename at all. -/
theorem C6_counterexample :
    recvStep 1 (fun _ => false) 1 "b.txt" ⟨[(1, [66])], 2⟩ (some "DONE:8976") =
      ⟨["OK"], [FsOp.write "./lora_received/b.txt" [66]],
        .inr (.completed "./lora_received/b.txt" [66])⟩ ∧
    ¬ isAtomicTrace "./lora_received/b.txt"
      [FsOp.write "./lora_received/b.txt" [66]] := by
  constructor
  · decide
  · rintro ⟨tmp, d, hne, hdir, heq⟩
    simpa using congrArg List.length heq

/-- C6 (amended): the receiver materializes the output at a path of the
form `join(RECEIVE_DIR, nm)` where `nm` contains no `/` — either
`basename(filename)` when that path does not exist, or
`<stem>_<k><ext>` for the least `k ≥ 1` whose candidate does not exist
(all smaller candidates and the basename path existing); the chosen path
itself does not exist; and the write is a single direct write to that
final path (not a temp-write-then-rename — see the counterexample). -/
theorem C6_path_and_write :
    (∀ (ex : String → Bool) (dir f : String) (fuel : Nat) (p : String),
      resolvePath ex dir f fuel = some p →
      ex p = false ∧
      ∃ nm : String, '/' ∉ nm.data ∧ p = joinPath dir nm ∧
        (nm = basename f ∨
         ∃ k, 1 ≤ k ∧
           nm = candName (splitext (basename f)).1 (splitext (basename f)).2 k ∧
           ex (joinPath dir (basename f)) = true ∧
           ∀ j, 1 ≤ j → j < k →
             ex (joinPath dir (candName (splitext (basename f)).1
               (splitext (basename f)).2 j)) = true)) ∧
    (∀ (total : Int) (ex : String → Bool) (fuel : Nat) (fname : String) (st : RecvState)
      (line : Option String),
      (recvStep total ex fuel fname st line).fs = [] ∨
      ∃ p d, (recvStep total ex fuel fname st line).fs = [FsOp.write p d] ∧
        resolvePath ex RECEIVE_DIR fname fuel = some p) := by
  constructor
  · intro ex dir f fuel p h
    obtain ⟨hex, hcases⟩ := resolvePath_spec ex dir f fuel p h
    refine ⟨hex, ?_⟩
    rcases hcases with ⟨hp, _⟩ | ⟨hextrue, k, hk, hp, hall⟩
    · exact ⟨basename f, basename_no_slash f, hp, Or.inl rfl⟩
    · refine ⟨candName (splitext (basename f)).1 (splitext (basename f)).2 k, ?_, hp,
        Or.inr ⟨k, hk, rfl, hextrue, hall⟩⟩
      apply candName_no_slash
      · intro hc
        exact basename_no_slash f ((splitextChars_sub (basename f).data).1 '/' hc)
      · intro hc
        exact basename_no_slash f ((splitextChars_sub (basename f).data).2 '/' hc)
  · exact recvStep_fs_shape

/-- C6 (witness): the collision-suffix resolution evaluated against an
`exists` oracle that reports only `./lora_received/c.txt` present — the
resolved path `./lora_received/c_1.txt` does not exist per the oracle. -/
theorem C6_witness :
    ((fun s : String => s == "./lora_received/c.txt") "./lora_received/c_1.txt") = false :=
  (C6_path_and_write.1 (fun s : String => s == "./lora_received/c.txt") RECEIVE_DIR
    "c.txt" 2 "./lora_received/c_1.txt" (by decide)).1

end LoraFT
